import Mathlib

/-!
# aws-ses-all-delete-suppression-list: `cmd/sesCmds.go`

A shallow embedding of the three commands of `cmd/sesCmds.go` (`listAll`,
`summary`, `deleteAll`) and of the helpers they share (`getAllDestinations`,
`showSummary`).

The program talks to three things it does not own: the remote SES service, the
terminal it reads the confirmation from, and the Go runtime.  They are gathered
in `Env`.  Whatever the program does to the outside (a service call, a sleep, a
write to standard output) is recorded, in order, as an `Event`.
-/

namespace SesCmds

/-! ## Data model -/

/-- One entry of the suppression list (`types.SuppressedDestinationSummary`).
`EmailAddress` is a `*string` and `LastUpdateTime` a `*time.Time`: `none` is
the nil pointer.  A time is kept as the text that the verb `%v` prints for it.
`Reason` is a string type (`types.SuppressionListReason`). -/
structure SuppressedDestinationSummary where
  EmailAddress : Option String
  Reason : String
  LastUpdateTime : Option String
  deriving DecidableEq, Repr

/-- One page of the listing (`sesv2.ListSuppressedDestinationsOutput`): the
records of the page and the continuation token, `none` for a nil pointer. -/
structure ListSuppressedDestinationsOutput where
  SuppressedDestinationSummaries : List SuppressedDestinationSummary
  NextToken : Option String
  deriving DecidableEq, Repr

/-- The order in which a `for ... range` loop visits the entries of a Go map:
every entry once, in an order the language leaves open. -/
structure RangeOrder where
  visit : List (String × Nat) → List (String × Nat)
  perm : ∀ m, (visit m).Perm m

/-- The surroundings of one run of a command.

* `ListSuppressedDestinations k` is the answer of the service to the `k`-th
  listing call of the run (counted from 0): a page, or the text of an error.
* `DeleteSuppressedDestination k` is the answer to the `k`-th delete call of the
  run: `none` for success, `some msg` for an error whose `Error()` is `msg`.
* `stdin` is what standard input holds when the confirmation is read.
* `rangeOrder` is the order in which the reason map is ranged over.
* `unicodeToLower` is the lower-case mapping of package `unicode` for the runes
  above U+007F. -/
structure Env where
  ListSuppressedDestinations : Nat → Except String ListSuppressedDestinationsOutput
  DeleteSuppressedDestination : Nat → Option String
  stdin : String
  rangeOrder : RangeOrder
  unicodeToLower : Char → Char

/-- What a command does to the outside, one entry per call in the source. -/
inductive Event where
  /-- A call `svc.ListSuppressedDestinations` with this `NextToken`. -/
  | listCall (NextToken : Option String)
  /-- A call `svc.DeleteSuppressedDestination` whose input holds this address
  pointer. -/
  | deleteCall (EmailAddress : Option String)
  /-- A call `time.Sleep` of this many seconds. -/
  | sleep (seconds : Nat)
  /-- One `fmt.Println` or `fmt.Printf`: exactly the text it writes. -/
  | print (text : String)
  deriving DecidableEq, Repr

/-- How a run ends: the function returns, the process is ended by `os.Exit`,
the process is ended by a run-time panic (a nil pointer dereference; the Go
runtime then ends the process with exit status 2), or the step budget of the
model is used up before any of these. -/
inductive Status where
  | returned
  | exited (code : Nat)
  | panicked
  | outOfFuel
  deriving DecidableEq, Repr

/-- A run: the events in the order they happen and the way the run ends. -/
structure Run where
  events : List Event
  status : Status
  deriving DecidableEq, Repr

/-! ## `getAllDestinations` (lines 21-42) -/

/-- The loop of `getAllDestinations`, entered with `k` listing calls already
made, the current `nextToken` and the `destinations` gathered so far.  Each
iteration takes one unit of `fuel`; the result is `none` when the fuel is used
up, and otherwise what the function returns. -/
def getAllDestinationsLoop (env : Env) :
    Nat → Nat → Option String → List SuppressedDestinationSummary →
    List Event × Option (Except String (List SuppressedDestinationSummary))
  | 0, _, _, _ => ([], none)
  | fuel + 1, k, nextToken, destinations =>
    match env.ListSuppressedDestinations k with
    | .error err => ([Event.listCall nextToken], some (.error err))
    | .ok resp =>
      let destinations := destinations ++ resp.SuppressedDestinationSummaries
      match resp.NextToken with
      | none => ([Event.listCall nextToken], some (.ok destinations))
      | some t =>
        let r := getAllDestinationsLoop env fuel (k + 1) (some t) destinations
        (Event.listCall nextToken :: r.1, r.2)

/-- The function `getAllDestinations`: no token and no record at the start. -/
def getAllDestinations (env : Env) (fuel : Nat) :
    List Event × Option (Except String (List SuppressedDestinationSummary)) :=
  getAllDestinationsLoop env fuel 0 none []

/-! ## `showSummary` (lines 44-55) -/

/-- The statement `reasonCount[k]++` on a map kept as a list of entries with
distinct keys: a missing key starts from the zero value. -/
def increment : List (String × Nat) → String → List (String × Nat)
  | [], k => [(k, 1)]
  | (k', c) :: rest, k =>
    if k' = k then (k', c + 1) :: rest else (k', c) :: increment rest k

/-- The value `m[k]` of the map: the zero value for a missing key. -/
def valueAt : List (String × Nat) → String → Nat
  | [], _ => 0
  | (k', c) :: rest, k => if k' = k then c else valueAt rest k

/-- The map `reasonCount` after the first loop of `showSummary`. -/
def reasonCount (destinations : List SuppressedDestinationSummary) : List (String × Nat) :=
  destinations.foldl (fun m destination => increment m destination.Reason) []

/-- The entries of `reasonCount` in the order the second loop visits them. -/
def reasonLines (order : RangeOrder) (destinations : List SuppressedDestinationSummary) :
    List (String × Nat) :=
  order.visit (reasonCount destinations)

/-- The text of `fmt.Printf("%s, %d\n", reason, count)`. -/
def reasonLine (entry : String × Nat) : String :=
  entry.1 ++ ", " ++ toString entry.2 ++ "\n"

/-- The text of `fmt.Printf("TOTAL, %d\n", totalDestinations)`. -/
def totalLine (totalDestinations : Nat) : String :=
  "TOTAL, " ++ toString totalDestinations ++ "\n"

/-- The function `showSummary`: the writes it makes, in order. -/
def showSummary (order : RangeOrder) (destinations : List SuppressedDestinationSummary) :
    List Event :=
  Event.print "Reason, Count\n"
    :: ((reasonLines order destinations).map (fun entry => Event.print (reasonLine entry))
        ++ [Event.print (totalLine destinations.length)])

/-! ## `listAll` and `summary` (lines 57-77) -/

/-- The loop of lines 65-67.  The arguments of `fmt.Printf` are evaluated
before the call: `*destination.EmailAddress` and `*destination.LastUpdateTime`
panic on a nil pointer, and then nothing is written for that destination or
for a later one. -/
def listRows : List SuppressedDestinationSummary → Run
  | [] => ⟨[], .returned⟩
  | destination :: rest =>
    match destination.EmailAddress, destination.LastUpdateTime with
    | some emailAddress, some lastUpdateTime =>
      let r := listRows rest
      ⟨Event.print (emailAddress ++ "," ++ destination.Reason ++ "," ++ lastUpdateTime
          ++ "\n") :: r.events, r.status⟩
    | _, _ => ⟨[], .panicked⟩

/-- The command `listAll`. -/
def listAll (env : Env) (fuel : Nat) : Run :=
  match getAllDestinations env fuel with
  | (calls, none) => ⟨calls, .outOfFuel⟩
  | (calls, some (.error err)) => ⟨calls ++ [Event.print (err ++ "\n")], .exited 1⟩
  | (calls, some (.ok destinations)) =>
    let r := listRows destinations
    ⟨calls ++ Event.print "Email Address,Reason,Last Update Time\n" :: r.events, r.status⟩

/-- The command `summary`. -/
def summary (env : Env) (fuel : Nat) : Run :=
  match getAllDestinations env fuel with
  | (calls, none) => ⟨calls, .outOfFuel⟩
  | (calls, some (.error err)) => ⟨calls ++ [Event.print (err ++ "\n")], .exited 1⟩
  | (calls, some (.ok destinations)) =>
    ⟨calls ++ showSummary env.rangeOrder destinations, .returned⟩

/-! ## The confirmation prompt of `deleteAll` (lines 92-99)

`fmt.Scanln`, `strings.TrimSpace`, `strings.ToLower` and `strings.Contains`
belong to the Go standard library; they are written out here as that library
defines them. -/

/-- The function `isSpace` of `fmt/scan.go`, from its table of ranges. -/
def isSpace (r : Char) : Bool :=
  let n := r.toNat
  (decide (0x0009 ≤ n) && decide (n ≤ 0x000d)) || decide (n = 0x0020)
    || decide (n = 0x0085) || decide (n = 0x00a0) || decide (n = 0x1680)
    || (decide (0x2000 ≤ n) && decide (n ≤ 0x200a))
    || (decide (0x2028 ≤ n) && decide (n ≤ 0x2029))
    || decide (n = 0x202f) || decide (n = 0x205f) || decide (n = 0x3000)

/-- The method `SkipSpace` of the scanner when a newline ends the input
(`Scanln`): spaces are passed over; a newline met first is the error
"unexpected newline" (`none`); otherwise the input from the first rune that is
not a space, or the empty input at end of file. -/
def skipSpace : List Char → Option (List Char)
  | [] => some []
  | r :: rest =>
    if r = '\n' then none
    else if isSpace r then skipSpace rest
    else some (r :: rest)

/-- The call `fmt.Scanln(&response)` for `var response string`: the value of
`response` afterwards.  The operand is a string, so the scanner skips the
leading spaces and stores the next word, the runes up to the first space.  When
the line is empty or the input is at its end, scanning fails before anything is
stored and `response` keeps its zero value.  What follows the word on the line
makes `Scanln` return the error "expected newline", after the word is stored;
the call site drops the returned count and error. -/
def Scanln (stdin : String) : String :=
  match skipSpace stdin.toList with
  | none => ""
  | some [] => ""
  | some rest => String.mk (rest.takeWhile (fun r => !isSpace r))

/-- The function `unicode.IsSpace`: the Latin-1 spaces, then the runes with the
property White_Space. -/
def IsSpace (r : Char) : Bool :=
  let n := r.toNat
  if n ≤ 0xff then
    r = '\t' || r = '\n' || n = 0x0b || n = 0x0c || r = '\r' || r = ' '
      || n = 0x85 || n = 0xa0
  else
    decide (n = 0x1680) || (decide (0x2000 ≤ n) && decide (n ≤ 0x200a))
      || decide (n = 0x2028) || decide (n = 0x2029) || decide (n = 0x202f)
      || decide (n = 0x205f) || decide (n = 0x3000)

/-- The function `strings.TrimSpace`: leading and trailing spaces removed. -/
def TrimSpace (s : String) : String :=
  String.mk ((s.toList.dropWhile IsSpace).reverse.dropWhile IsSpace).reverse

/-- The function `unicode.ToLower` on one rune: the ASCII letters directly, the
runes above U+007F through the case table `tbl`. -/
def toLowerRune (tbl : Char → Char) (r : Char) : Char :=
  if r.toNat ≤ 0x7f then
    if 'A'.toNat ≤ r.toNat ∧ r.toNat ≤ 'Z'.toNat then Char.ofNat (r.toNat + 32) else r
  else tbl r

/-- The function `strings.ToLower`: every rune mapped to lower case. -/
def ToLower (tbl : Char → Char) (s : String) : String :=
  String.mk (s.toList.map (toLowerRune tbl))

/-- The function `strings.Contains` on the runes of both strings. -/
def containsRunes : List Char → List Char → Bool
  | [], substr => substr.isEmpty
  | r :: rest, substr => substr.isPrefixOf (r :: rest) || containsRunes rest substr

/-- The function `strings.Contains`. -/
def Contains (s substr : String) : Bool :=
  containsRunes s.toList substr.toList

/-- The value compared with `"delete"` on line 96. -/
def confirmation (env : Env) : String :=
  ToLower env.unicodeToLower (TrimSpace (Scanln env.stdin))

/-! ## `deleteAll` (lines 79-122) -/

/-- A stretch of the delete loop: the events it produced, the number of delete
calls the run has made when it ends, and whether the loop goes on
(`returned`) or the process was ended. -/
structure Stretch where
  events : List Event
  deleteCalls : Nat
  status : Status
  deriving DecidableEq, Repr

/-- The condition of line 110 on the text of an error. -/
def isThrottling (err : String) : Bool :=
  Contains err "TooManyRequestsException"

/-- The loop `for j := 0; j < 3; j++` (lines 107-118) for one address, entered
at attempt `j` with `remaining = 3 - j` iterations left and `c` delete calls
made so far in the run. -/
def deleteAttempts (env : Env) (EmailAddress : Option String) : Nat → Nat → Nat → Stretch
  | 0, _, c => ⟨[], c, .returned⟩
  | remaining + 1, j, c =>
    match env.DeleteSuppressedDestination c with
    | some err =>
      if isThrottling err then
        let r := deleteAttempts env EmailAddress remaining (j + 1) (c + 1)
        ⟨Event.deleteCall EmailAddress :: Event.sleep (j + 1) :: r.events,
          r.deleteCalls, r.status⟩
      else
        ⟨[Event.deleteCall EmailAddress, Event.print (err ++ "\n")], c + 1, .exited 1⟩
    | none => ⟨[Event.deleteCall EmailAddress], c + 1, .returned⟩

/-- Whether the answer to the `k`-th delete call of the run is an error that
line 110 takes for a throttling error. -/
def throttled (env : Env) (k : Nat) : Bool :=
  match env.DeleteSuppressedDestination k with
  | some err => isThrottling err
  | none => false

/-- The events of `k` attempts in a row that are answered with a throttling
error, the first of them being attempt `j` of the loop: each is a delete call
followed by the sleep of line 111. -/
def throttledAttempts (EmailAddress : Option String) : Nat → Nat → List Event
  | 0, _ => []
  | k + 1, j =>
    Event.deleteCall EmailAddress :: Event.sleep (j + 1)
      :: throttledAttempts EmailAddress k (j + 1)

/-- The text of `fmt.Printf("\rProgress: %d/%d\n", i+1, totalDestinations)`,
given the number `i+1`. -/
def progressLine (processed totalDestinations : Nat) : String :=
  "\rProgress: " ++ toString processed ++ "/" ++ toString totalDestinations ++ "\n"

/-- The loop `for i, destination := range destinations` (lines 103-120),
entered at index `i` with `c` delete calls made so far, over the destinations
still to be processed. -/
def deleteLoop (env : Env) (totalDestinations : Nat) :
    Nat → Nat → List SuppressedDestinationSummary → Stretch
  | _, c, [] => ⟨[], c, .returned⟩
  | i, c, destination :: rest =>
    let a := deleteAttempts env destination.EmailAddress 3 0 c
    match a.status with
    | .returned =>
      let r := deleteLoop env totalDestinations (i + 1) a.deleteCalls rest
      ⟨a.events ++ Event.print (progressLine (i + 1) totalDestinations) :: r.events,
        r.deleteCalls, r.status⟩
    | _ => a

/-- What `deleteAll` writes between the listing and the reading of the
confirmation (lines 86-90). -/
def deletePrompt (order : RangeOrder) (destinations : List SuppressedDestinationSummary) :
    List Event :=
  Event.print "You are about to delete the following suppressed email destinations:\n"
    :: (showSummary order destinations
        ++ [Event.print "Do you really want to delete all suppressed email destinations? This action cannot be undone.\n",
            Event.print "If you want to continue, type 'delete' to proceed: "])

/-- Lines 101-121 of `deleteAll`, past the confirmation. -/
def deleteConfirmed (env : Env) (destinations : List SuppressedDestinationSummary) : Run :=
  let r := deleteLoop env destinations.length 0 0 destinations
  match r.status with
  | .returned =>
    ⟨Event.print "Deleting suppressed email destinations:\n"
        :: (r.events ++ [Event.print "\nDeletion complete.\n"]), .returned⟩
  | s => ⟨Event.print "Deleting suppressed email destinations:\n" :: r.events, s⟩

/-- The command `deleteAll`. -/
def deleteAll (env : Env) (fuel : Nat) : Run :=
  match getAllDestinations env fuel with
  | (calls, none) => ⟨calls, .outOfFuel⟩
  | (calls, some (.error err)) => ⟨calls ++ [Event.print (err ++ "\n")], .exited 1⟩
  | (calls, some (.ok destinations)) =>
    if confirmation env ≠ "delete" then
      ⟨calls ++ deletePrompt env.rangeOrder destinations
          ++ [Event.print "Operation cancelled.\n"], .exited 1⟩
    else
      let r := deleteConfirmed env destinations
      ⟨calls ++ deletePrompt env.rangeOrder destinations ++ r.events, r.status⟩

/-- The delete calls among some events, as the addresses they were made for. -/
def deleteCallsOf : List Event → List (Option String)
  | [] => []
  | Event.deleteCall e :: rest => e :: deleteCallsOf rest
  | _ :: rest => deleteCallsOf rest

/-- The sleeps among some events, as their lengths in seconds. -/
def sleepsOf : List Event → List Nat
  | [] => []
  | Event.sleep n :: rest => n :: sleepsOf rest
  | _ :: rest => sleepsOf rest

/-- The texts written among some events. -/
def printsOf : List Event → List String
  | [] => []
  | Event.print t :: rest => t :: printsOf rest
  | _ :: rest => printsOf rest

/-- The characters written to standard output by some events, in order. -/
def stdoutOf (events : List Event) : List Char :=
  ((printsOf events).map String.toList).flatten

/-- The number of lines written to standard output by some events: the number
of line breaks among the characters written. -/
def printedLines (events : List Event) : Nat :=
  (stdoutOf events).count '\n'

/-- Among the three delete calls that the run makes from its `c`-th call on,
the number of leading ones that are answered with a throttling error. -/
def leadingThrottled (env : Env) (c : Nat) : Nat :=
  if throttled env c = false then 0
  else if throttled env (c + 1) = false then 1
  else if throttled env (c + 2) = false then 2
  else 3

/-! ## Sample surroundings used to run the definitions -/

/-- Ranging over a map in the order of the entries. -/
def inOrder : RangeOrder := ⟨id, fun _ => List.Perm.refl _⟩

/-- A service that answers the `k`-th listing call with the `k`-th of `pages`
(with an error once they are used up) and the `k`-th delete call with
`answers k`. -/
def sampleEnv (pages : List ListSuppressedDestinationsOutput)
    (answers : Nat → Option String) (stdin : String) : Env where
  ListSuppressedDestinations := fun k =>
    match pages[k]? with
    | some page => .ok page
    | none => .error "InternalFailure"
  DeleteSuppressedDestination := answers
  stdin := stdin
  rangeOrder := inOrder
  unicodeToLower := id

/-- The input of the end-to-end example of the summary. -/
def threeDestinations : List SuppressedDestinationSummary :=
  [⟨some "a@x.com", "BOUNCE", some "2024-01-01 00:00:00 +0000 UTC"⟩,
   ⟨some "b@x.com", "COMPLAINT", some "2024-01-02 00:00:00 +0000 UTC"⟩,
   ⟨some "c@x.com", "BOUNCE", some "2024-01-03 00:00:00 +0000 UTC"⟩]

/-! ## Lemmas on `getAllDestinations` -/

theorem getAllDestinationsLoop_pages (env : Env) (last : ListSuppressedDestinationsOutput)
    (hlast : last.NextToken = none) :
    ∀ (pages : List ListSuppressedDestinationsOutput) (fuel k : Nat) (nextToken : Option String)
      (destinations : List SuppressedDestinationSummary),
      (∀ page ∈ pages, page.NextToken ≠ none) →
      (∀ j page, (pages ++ [last])[j]? = some page →
        env.ListSuppressedDestinations (k + j) = .ok page) →
      pages.length + 1 ≤ fuel →
      getAllDestinationsLoop env fuel k nextToken destinations
        = (Event.listCall nextToken :: pages.map (fun page => Event.listCall page.NextToken),
            some (.ok (destinations
              ++ ((pages ++ [last]).map (fun page => page.SuppressedDestinationSummaries)).flatten)))
  | [], fuel, k, nextToken, destinations, _, hresp, hfuel => by
    obtain ⟨fuel, rfl⟩ : ∃ f, fuel = f + 1 := ⟨fuel - 1, by omega⟩
    have h0 := hresp 0 last (by simp)
    simp only [Nat.add_zero] at h0
    simp [getAllDestinationsLoop, h0, hlast]
  | first :: pages, fuel, k, nextToken, destinations, hmore, hresp, hfuel => by
    obtain ⟨fuel, rfl⟩ : ∃ f, fuel = f + 1 := ⟨fuel - 1, by simp at hfuel; omega⟩
    have h0 := hresp 0 first (by simp)
    simp only [Nat.add_zero] at h0
    obtain ⟨t, ht⟩ : ∃ t, first.NextToken = some t :=
      Option.ne_none_iff_exists'.mp (hmore first (by simp))
    have ih := getAllDestinationsLoop_pages env last hlast pages fuel (k + 1) (some t)
      (destinations ++ first.SuppressedDestinationSummaries)
      (fun page hp => hmore page (List.mem_cons_of_mem _ hp))
      (fun j page hj => by
        have := hresp (j + 1) page (by simpa using hj)
        simpa [Nat.add_assoc, Nat.add_comm 1 j] using this)
      (by simp at hfuel; omega)
    simp [getAllDestinationsLoop, h0, ht, ih]

/-! ## Lemmas on `showSummary` -/

theorem mem_keys_increment (m : List (String × Nat)) (k x : String) :
    x ∈ (increment m k).map Prod.fst ↔ x = k ∨ x ∈ m.map Prod.fst := by
  induction m with
  | nil => simp [increment]
  | cons e rest ih =>
    obtain ⟨k', c⟩ := e
    by_cases h : k' = k
    · subst h
      simp [increment]
    · simp only [increment, h, if_false, List.map_cons, List.mem_cons, ih]
      tauto

theorem nodup_keys_increment (m : List (String × Nat)) (k : String)
    (hm : (m.map Prod.fst).Nodup) : ((increment m k).map Prod.fst).Nodup := by
  induction m with
  | nil => simp [increment]
  | cons e rest ih =>
    obtain ⟨k', c⟩ := e
    simp only [List.map_cons, List.nodup_cons] at hm
    by_cases h : k' = k
    · subst h
      simpa [increment] using hm
    · simp only [increment, h, if_false, List.map_cons, List.nodup_cons]
      refine ⟨?_, ih hm.2⟩
      intro hx
      rcases (mem_keys_increment rest k k').mp hx with hk | hk
      · exact h hk
      · exact hm.1 hk

theorem sum_increment (m : List (String × Nat)) (k : String) :
    ((increment m k).map Prod.snd).sum = (m.map Prod.snd).sum + 1 := by
  induction m with
  | nil => simp [increment]
  | cons e rest ih =>
    obtain ⟨k', c⟩ := e
    by_cases h : k' = k
    · subst h
      simp [increment]
      omega
    · simp only [increment, h, if_false, List.map_cons, List.sum_cons, ih]
      omega

theorem valueAt_increment (m : List (String × Nat)) (k r : String) :
    valueAt (increment m k) r = valueAt m r + (if k = r then 1 else 0) := by
  induction m with
  | nil => simp [increment, valueAt]
  | cons e rest ih =>
    obtain ⟨k', c⟩ := e
    by_cases h : k' = k
    · subst h
      by_cases hr : k' = r
      · simp [increment, valueAt, hr]
      · simp [increment, valueAt, hr]
    · by_cases hr : k' = r
      · subst hr
        simp [increment, valueAt, h, Ne.symm h]
      · simp [increment, valueAt, h, hr, ih]

theorem valueAt_of_mem (m : List (String × Nat)) (hm : (m.map Prod.fst).Nodup)
    (r : String) (c : Nat) (h : (r, c) ∈ m) : valueAt m r = c := by
  induction m with
  | nil => simp at h
  | cons e rest ih =>
    obtain ⟨k', c'⟩ := e
    simp only [List.map_cons, List.nodup_cons] at hm
    rcases List.mem_cons.mp h with heq | hrest
    · cases heq
      simp [valueAt]
    · have hne : k' ≠ r := by
        intro hk
        subst hk
        exact hm.1 (List.mem_map.mpr ⟨(k', c), hrest, rfl⟩)
      simp only [valueAt, hne, if_false]
      exact ih hm.2 hrest

/-- The state of the map after the first loop of `showSummary`, started from
any map `m`: keys, distinctness of keys, sum of the counts, and each count. -/
theorem foldl_increment (destinations : List SuppressedDestinationSummary) :
    ∀ m : List (String × Nat),
      (∀ x, x ∈ (destinations.foldl (fun m d => increment m d.Reason) m).map Prod.fst
          ↔ x ∈ m.map Prod.fst ∨ x ∈ destinations.map (fun d => d.Reason))
      ∧ ((m.map Prod.fst).Nodup →
          ((destinations.foldl (fun m d => increment m d.Reason) m).map Prod.fst).Nodup)
      ∧ ((destinations.foldl (fun m d => increment m d.Reason) m).map Prod.snd).sum
          = (m.map Prod.snd).sum + destinations.length
      ∧ (∀ r, valueAt (destinations.foldl (fun m d => increment m d.Reason) m) r
          = valueAt m r + destinations.countP (fun d => d.Reason = r)) := by
  induction destinations with
  | nil => intro m; simp
  | cons d rest ih =>
    intro m
    obtain ⟨h1, h2, h3, h4⟩ := ih (increment m d.Reason)
    refine ⟨?_, ?_, ?_, ?_⟩
    · intro x
      simp only [List.foldl_cons, h1, mem_keys_increment, List.map_cons, List.mem_cons]
      tauto
    · intro hm
      exact h2 (nodup_keys_increment m d.Reason hm)
    · simp only [List.foldl_cons, h3, sum_increment, List.length_cons]
      omega
    · intro r
      simp only [List.foldl_cons, h4, valueAt_increment, List.countP_cons]
      by_cases hr : d.Reason = r
      · simp [hr]; omega
      · simp [hr]

/-- What the second loop of `showSummary` ranges over: one entry per reason
that occurs, holding the number of destinations with that reason. -/
theorem reasonLines_spec (order : RangeOrder) (destinations : List SuppressedDestinationSummary) :
    ((reasonLines order destinations).map Prod.fst).Nodup
    ∧ (∀ r, r ∈ (reasonLines order destinations).map Prod.fst
        ↔ r ∈ destinations.map (fun d => d.Reason))
    ∧ ((reasonLines order destinations).map Prod.snd).sum = destinations.length
    ∧ (∀ r c, (r, c) ∈ reasonLines order destinations →
        c = destinations.countP (fun d => d.Reason = r)) := by
  obtain ⟨h1, h2, h3, h4⟩ := foldl_increment destinations []
  have hp : (reasonLines order destinations).Perm (reasonCount destinations) :=
    order.perm _
  have hn : ((reasonCount destinations).map Prod.fst).Nodup := h2 (by simp)
  refine ⟨?_, ?_, ?_, ?_⟩
  · exact ((hp.map Prod.fst).nodup_iff).mpr hn
  · intro r
    rw [(hp.map Prod.fst).mem_iff]
    simpa [reasonCount] using h1 r
  · rw [(hp.map Prod.snd).sum_eq]
    simpa [reasonCount] using h3
  · intro r c hrc
    have hmem : (r, c) ∈ reasonCount destinations := hp.mem_iff.mp hrc
    have hv := valueAt_of_mem _ hn r c hmem
    have := h4 r
    simp only [valueAt, Nat.zero_add] at this
    rw [← hv]
    simpa [reasonCount] using this

/-! ## Lemmas on `listAll` -/

/-- The loop of `listAll` over destinations whose pointers are all set. -/
theorem listRows_set :
    ∀ rows : List (String × String × String),
      listRows (rows.map (fun r => ⟨some r.1, r.2.1, some r.2.2⟩))
        = ⟨rows.map (fun r => Event.print (r.1 ++ "," ++ r.2.1 ++ "," ++ r.2.2 ++ "\n")),
            .returned⟩
  | [] => rfl
  | r :: rows => by
    simp [listRows, listRows_set rows]

/-- Rows whose fields hold no line break hold one line break each. -/
theorem count_lineBreaks_rows :
    ∀ rows : List (String × String × String),
      (∀ r ∈ rows, '\n' ∉ r.1.toList ∧ '\n' ∉ r.2.1.toList ∧ '\n' ∉ r.2.2.toList) →
      List.count '\n' ((rows.map (fun r => r.1 ++ "," ++ r.2.1 ++ "," ++ r.2.2 ++ "\n")).map
        String.toList).flatten = rows.length
  | [], _ => rfl
  | r :: rows, h => by
    have ih := count_lineBreaks_rows rows (fun x hx => h x (List.mem_cons_of_mem _ hx))
    obtain ⟨h1, h2, h3⟩ := h r (List.mem_cons_self _ _)
    simp only [String.toList] at h1 h2 h3
    simp only [List.map_cons, List.flatten_cons, List.count_append, ih, String.toList,
      String.data_append, List.count_eq_zero_of_not_mem h1, List.count_eq_zero_of_not_mem h2,
      List.count_eq_zero_of_not_mem h3, List.length_cons]
    have hc : List.count '\n' ",".data = 0 := by decide
    have hn : List.count '\n' "\n".data = 1 := by decide
    rw [hc, hn]
    omega

/-! ## Lemmas on the events of a run -/

theorem printsOf_append (a b : List Event) : printsOf (a ++ b) = printsOf a ++ printsOf b := by
  induction a with
  | nil => rfl
  | cons e rest ih => cases e <;> simp [printsOf, ih]

theorem deleteCallsOf_append (a b : List Event) :
    deleteCallsOf (a ++ b) = deleteCallsOf a ++ deleteCallsOf b := by
  induction a with
  | nil => rfl
  | cons e rest ih => cases e <;> simp [deleteCallsOf, ih]

theorem sleepsOf_append (a b : List Event) : sleepsOf (a ++ b) = sleepsOf a ++ sleepsOf b := by
  induction a with
  | nil => rfl
  | cons e rest ih => cases e <;> simp [sleepsOf, ih]

theorem printsOf_map_print {α : Type} (f : α → String) (l : List α) :
    printsOf (l.map (fun x => Event.print (f x))) = l.map f := by
  induction l with
  | nil => rfl
  | cons x rest ih => simp [printsOf, ih]

theorem deleteCallsOf_map_print {α : Type} (f : α → String) (l : List α) :
    deleteCallsOf (l.map (fun x => Event.print (f x))) = [] := by
  induction l with
  | nil => rfl
  | cons x rest ih => simp [deleteCallsOf, ih]

/-- The events of the listing are listing calls only. -/
theorem getAllDestinationsLoop_events (env : Env) :
    ∀ (fuel k : Nat) (nextToken : Option String)
      (destinations : List SuppressedDestinationSummary),
      printsOf (getAllDestinationsLoop env fuel k nextToken destinations).1 = []
      ∧ deleteCallsOf (getAllDestinationsLoop env fuel k nextToken destinations).1 = []
      ∧ sleepsOf (getAllDestinationsLoop env fuel k nextToken destinations).1 = []
  | 0, _, _, _ => by simp [getAllDestinationsLoop, printsOf, deleteCallsOf, sleepsOf]
  | fuel + 1, k, nextToken, destinations => by
    simp only [getAllDestinationsLoop]
    cases hk : env.ListSuppressedDestinations k with
    | error err => simp [printsOf, deleteCallsOf, sleepsOf]
    | ok resp =>
      cases ht : resp.NextToken with
      | none => simp [ht, printsOf, deleteCallsOf, sleepsOf]
      | some t =>
        have ih := getAllDestinationsLoop_events env fuel (k + 1) (some t)
          (destinations ++ resp.SuppressedDestinationSummaries)
        simpa [ht, printsOf, deleteCallsOf, sleepsOf] using ih

theorem printsOf_getAllDestinations (env : Env) (fuel : Nat) :
    printsOf (getAllDestinations env fuel).1 = [] :=
  (getAllDestinationsLoop_events env fuel 0 none []).1

theorem deleteCallsOf_getAllDestinations (env : Env) (fuel : Nat) :
    deleteCallsOf (getAllDestinations env fuel).1 = [] :=
  (getAllDestinationsLoop_events env fuel 0 none []).2.1

/-! ## Lemmas on `deleteAll` -/

/-- Attempts answered with a throttling error are passed one by one. -/
theorem deleteAttempts_throttled (env : Env) (e : Option String) :
    ∀ (k m j c : Nat), (∀ t, t < k → throttled env (c + t) = true) →
      deleteAttempts env e (k + m) j c
        = ⟨throttledAttempts e k j ++ (deleteAttempts env e m (j + k) (c + k)).events,
            (deleteAttempts env e m (j + k) (c + k)).deleteCalls,
            (deleteAttempts env e m (j + k) (c + k)).status⟩
  | 0, m, j, c, _ => by simp [throttledAttempts]
  | k + 1, m, j, c, h => by
    have h0 : throttled env c = true := by simpa using h 0 (by omega)
    have ih := deleteAttempts_throttled env e k m (j + 1) (c + 1)
      (fun t ht => by
        have := h (t + 1) (by omega)
        simpa [Nat.add_assoc, Nat.add_comm 1 t] using this)
    rw [show k + 1 + m = (k + m) + 1 by omega]
    simp only [throttled] at h0
    cases hd : env.DeleteSuppressedDestination c with
    | none => simp [hd] at h0
    | some err =>
      rw [hd] at h0
      simp only at h0
      simp only [deleteAttempts, hd, h0, if_true, ih, throttledAttempts]
      simp [Nat.add_assoc, Nat.add_comm 1 k]

/-- The delete loop over a sequence in two parts. -/
theorem deleteLoop_append (env : Env) (total : Nat) :
    ∀ (pre : List SuppressedDestinationSummary) (i c : Nat)
      (post : List SuppressedDestinationSummary) (preEvents : List Event) (c' : Nat),
      deleteLoop env total i c pre = ⟨preEvents, c', .returned⟩ →
      deleteLoop env total i c (pre ++ post)
        = ⟨preEvents ++ (deleteLoop env total (i + pre.length) c' post).events,
            (deleteLoop env total (i + pre.length) c' post).deleteCalls,
            (deleteLoop env total (i + pre.length) c' post).status⟩
  | [], i, c, post, preEvents, c', h => by
    simp only [deleteLoop, Stretch.mk.injEq] at h
    obtain ⟨h1, h2, _⟩ := h
    subst h1 h2
    simp
  | d :: pre, i, c, post, preEvents, c', h => by
    simp only [deleteLoop] at h
    simp only [List.cons_append, deleteLoop]
    cases hs : (deleteAttempts env d.EmailAddress 3 0 c).status with
    | returned =>
      simp only [hs] at h
      cases hr : deleteLoop env total (i + 1) (deleteAttempts env d.EmailAddress 3 0 c).deleteCalls
        pre with
      | mk ev dc st =>
        rw [hr] at h
        simp only [Stretch.mk.injEq] at h
        obtain ⟨h1, h2, h3⟩ := h
        subst h1 h2 h3
        have ih := deleteLoop_append env total pre (i + 1) _ post ev dc hr
        have hi : i + 1 + pre.length = i + (pre.length + 1) := by omega
        rw [hi] at ih
        simp [hs, ih]
    | exited code =>
      simp only [hs] at h
      rw [h] at hs
      simp at hs
    | panicked =>
      simp only [hs] at h
      rw [h] at hs
      simp at hs
    | outOfFuel =>
      simp only [hs] at h
      rw [h] at hs
      simp at hs

/-- The run of `deleteAll` past an accepted confirmation, from the delete
loop. -/
theorem deleteAll_confirmed (env : Env) (fuel : Nat) (calls : List Event)
    (destinations : List SuppressedDestinationSummary)
    (hlist : getAllDestinations env fuel = (calls, some (.ok destinations)))
    (hconf : confirmation env = "delete") :
    deleteAll env fuel
      = ⟨calls ++ deletePrompt env.rangeOrder destinations
          ++ Event.print "Deleting suppressed email destinations:\n"
            :: ((deleteLoop env destinations.length 0 0 destinations).events
              ++ (if (deleteLoop env destinations.length 0 0 destinations).status = .returned
                  then [Event.print "\nDeletion complete.\n"] else [])),
          (deleteLoop env destinations.length 0 0 destinations).status⟩ := by
  simp only [deleteAll, hlist, hconf, ne_eq, not_true_eq_false, if_false, deleteConfirmed]
  cases hs : (deleteLoop env destinations.length 0 0 destinations).status <;> simp

/-- The three attempts for one address when the first `k ≤ 2` are answered with
a throttling error and the next one succeeds. -/
theorem deleteAttempts_success (env : Env) (e : Option String) (k c : Nat) (hk : k ≤ 2)
    (hthr : ∀ t, t < k → throttled env (c + t) = true)
    (hok : env.DeleteSuppressedDestination (c + k) = none) :
    deleteAttempts env e 3 0 c
      = ⟨throttledAttempts e k 0 ++ [Event.deleteCall e], c + k + 1, .returned⟩ := by
  have h := deleteAttempts_throttled env e k (3 - k) 0 c hthr
  rw [show k + (3 - k) = 3 by omega] at h
  rw [h]
  obtain ⟨m, hm⟩ : ∃ m, 3 - k = m + 1 := ⟨2 - k, by omega⟩
  simp [hm, deleteAttempts, hok]

/-- The three attempts for one address when the first `k ≤ 2` are answered with
a throttling error and the next one with another error. -/
theorem deleteAttempts_fatal (env : Env) (e : Option String) (k c : Nat) (err : String) (hk : k ≤ 2)
    (hthr : ∀ t, t < k → throttled env (c + t) = true)
    (herr : env.DeleteSuppressedDestination (c + k) = some err)
    (hnot : isThrottling err = false) :
    deleteAttempts env e 3 0 c
      = ⟨throttledAttempts e k 0 ++ [Event.deleteCall e, Event.print (err ++ "\n")],
          c + k + 1, .exited 1⟩ := by
  have h := deleteAttempts_throttled env e k (3 - k) 0 c hthr
  rw [show k + (3 - k) = 3 by omega] at h
  rw [h]
  obtain ⟨m, hm⟩ : ∃ m, 3 - k = m + 1 := ⟨2 - k, by omega⟩
  simp [hm, deleteAttempts, herr, hnot]

/-- The three attempts for one address when all are answered with a throttling
error. -/
theorem deleteAttempts_exhausted (env : Env) (e : Option String) (c : Nat)
    (hthr : ∀ t, t < 3 → throttled env (c + t) = true) :
    deleteAttempts env e 3 0 c = ⟨throttledAttempts e 3 0, c + 3, .returned⟩ := by
  have h := deleteAttempts_throttled env e 3 0 0 c hthr
  simpa [deleteAttempts] using h

theorem deleteCallsOf_throttledAttempts (e : Option String) :
    ∀ k j, deleteCallsOf (throttledAttempts e k j) = List.replicate k e
  | 0, _ => rfl
  | k + 1, j => by
    simp [throttledAttempts, deleteCallsOf, deleteCallsOf_throttledAttempts e k (j + 1),
      List.replicate_succ]

/-- The delete loop at a record whose attempts end without an exit. -/
theorem deleteLoop_cons_returned (env : Env) (total i c : Nat)
    (d : SuppressedDestinationSummary) (rest : List SuppressedDestinationSummary)
    (attempts : List Event) (c' : Nat)
    (h : deleteAttempts env d.EmailAddress 3 0 c = ⟨attempts, c', .returned⟩) :
    deleteLoop env total i c (d :: rest)
      = ⟨attempts ++ Event.print (progressLine (i + 1) total)
            :: (deleteLoop env total (i + 1) c' rest).events,
          (deleteLoop env total (i + 1) c' rest).deleteCalls,
          (deleteLoop env total (i + 1) c' rest).status⟩ := by
  simp [deleteLoop, h]

/-- The delete loop at a record whose attempts end with an exit. -/
theorem deleteLoop_cons_exited (env : Env) (total i c : Nat)
    (d : SuppressedDestinationSummary) (rest : List SuppressedDestinationSummary)
    (attempts : List Event) (c' code : Nat)
    (h : deleteAttempts env d.EmailAddress 3 0 c = ⟨attempts, c', .exited code⟩) :
    deleteLoop env total i c (d :: rest) = ⟨attempts, c', .exited code⟩ := by
  simp [deleteLoop, h]

theorem deleteCallsOf_deletePrompt (order : RangeOrder)
    (destinations : List SuppressedDestinationSummary) :
    deleteCallsOf (deletePrompt order destinations) = [] := by
  simp [deletePrompt, showSummary, deleteCallsOf, deleteCallsOf_append,
    deleteCallsOf_map_print]

/-- No loop for one address makes more calls than it has iterations. -/
theorem deleteAttempts_calls_le (env : Env) (e : Option String) :
    ∀ remaining j c,
      (deleteCallsOf (deleteAttempts env e remaining j c).events).length ≤ remaining
  | 0, _, _ => by simp [deleteAttempts, deleteCallsOf]
  | remaining + 1, j, c => by
    have ih := deleteAttempts_calls_le env e remaining (j + 1) (c + 1)
    simp only [deleteAttempts]
    cases hd : env.DeleteSuppressedDestination c with
    | none => simp [deleteCallsOf]
    | some err =>
      by_cases ht : isThrottling err = true
      · simp only [ht, if_true, deleteCallsOf, List.length_cons]
        omega
      · simp [ht, deleteCallsOf]

/-- Without an error other than throttling, no loop for one address exits. -/
theorem deleteAttempts_returned (env : Env) (e : Option String)
    (h : ∀ k, env.DeleteSuppressedDestination k = none ∨ throttled env k = true) :
    ∀ remaining j c, (deleteAttempts env e remaining j c).status = .returned
  | 0, _, _ => rfl
  | remaining + 1, j, c => by
    have ih := deleteAttempts_returned env e h remaining (j + 1) (c + 1)
    simp only [deleteAttempts]
    cases hd : env.DeleteSuppressedDestination c with
    | none => rfl
    | some err =>
      have ht : isThrottling err = true := by
        rcases h c with hn | ht
        · rw [hd] at hn
          cases hn
        · simpa [throttled, hd] using ht
      simp [ht, ih]

/-- Without an error other than throttling, the delete loop does not exit. -/
theorem deleteLoop_returned (env : Env) (total : Nat)
    (h : ∀ k, env.DeleteSuppressedDestination k = none ∨ throttled env k = true) :
    ∀ (destinations : List SuppressedDestinationSummary) (i c : Nat),
      (deleteLoop env total i c destinations).status = .returned
  | [], _, _ => rfl
  | d :: rest, i, c => by
    simp only [deleteLoop, deleteAttempts_returned env d.EmailAddress h 3 0 c]
    exact deleteLoop_returned env total h rest (i + 1) _

/-- The delete loop when every call succeeds at once. -/
theorem deleteLoop_all_succeed (env : Env) (total : Nat) :
    ∀ (destinations : List SuppressedDestinationSummary) (i c : Nat),
      (∀ k, k < destinations.length → env.DeleteSuppressedDestination (c + k) = none) →
      deleteLoop env total i c destinations
        = ⟨((destinations.enumFrom i).map (fun p =>
              [Event.deleteCall p.2.EmailAddress,
                Event.print (progressLine (p.1 + 1) total)])).flatten,
            c + destinations.length, .returned⟩
  | [], _, _, _ => by simp [deleteLoop]
  | d :: rest, i, c, h => by
    have h0 : env.DeleteSuppressedDestination c = none := by simpa using h 0 (by simp)
    have ih := deleteLoop_all_succeed env total rest (i + 1) (c + 1)
      (fun k hk => by
        have := h (k + 1) (by simpa using hk)
        simpa [Nat.add_assoc, Nat.add_comm 1 k] using this)
    have ha : deleteAttempts env d.EmailAddress 3 0 c
        = ⟨[Event.deleteCall d.EmailAddress], c + 1, .returned⟩ := by
      simp [deleteAttempts, h0]
    rw [deleteLoop_cons_returned env total i c d rest _ _ ha, ih]
    simp [List.enumFrom, Nat.add_assoc, Nat.add_comm 1 rest.length]

theorem deleteCallsOf_all_succeed (total : Nat) :
    ∀ (destinations : List SuppressedDestinationSummary) (i : Nat),
      deleteCallsOf ((destinations.enumFrom i).map (fun p =>
          [Event.deleteCall p.2.EmailAddress,
            Event.print (progressLine (p.1 + 1) total)])).flatten
        = destinations.map (fun d => d.EmailAddress)
  | [], _ => rfl
  | d :: rest, i => by
    simp [List.enumFrom, deleteCallsOf, deleteCallsOf_all_succeed total rest (i + 1)]

theorem printsOf_all_succeed (total : Nat) :
    ∀ (destinations : List SuppressedDestinationSummary) (i : Nat),
      printsOf ((destinations.enumFrom i).map (fun p =>
          [Event.deleteCall p.2.EmailAddress,
            Event.print (progressLine (p.1 + 1) total)])).flatten
        = (List.range' i destinations.length).map (fun j => progressLine (j + 1) total)
  | [], _ => rfl
  | d :: rest, i => by
    simp [List.enumFrom, printsOf, printsOf_all_succeed total rest (i + 1), List.range'_succ]

/-- The loop for one address, by the number of leading throttled attempts. -/
theorem deleteAttempts_eq (env : Env) (e : Option String) (c : Nat) :
    deleteAttempts env e 3 0 c
      = ⟨throttledAttempts e (leadingThrottled env c) 0
          ++ (if leadingThrottled env c = 3 then []
              else match env.DeleteSuppressedDestination (c + leadingThrottled env c) with
                | none => [Event.deleteCall e]
                | some err => [Event.deleteCall e, Event.print (err ++ "\n")]),
          c + min (leadingThrottled env c + 1) 3,
          if leadingThrottled env c = 3 then .returned
          else match env.DeleteSuppressedDestination (c + leadingThrottled env c) with
            | none => .returned
            | some _ => .exited 1⟩ := by
  have hc : c + 2 = c + 1 + 1 := rfl
  simp only [deleteAttempts, leadingThrottled, throttled, hc]
  cases h0 : env.DeleteSuppressedDestination c with
  | none => simp [throttledAttempts, h0]
  | some e0 =>
    cases t0 : isThrottling e0 with
    | false => simp [throttledAttempts, h0, t0]
    | true =>
      cases h1 : env.DeleteSuppressedDestination (c + 1) with
      | none => simp [throttledAttempts, h1, t0]
      | some e1 =>
        cases t1 : isThrottling e1 with
        | false => simp [throttledAttempts, h1, t0, t1]
        | true =>
          cases h2 : env.DeleteSuppressedDestination (c + 1 + 1) with
          | none => simp [throttledAttempts, hc, h2, t0, t1]
          | some e2 =>
            cases t2 : isThrottling e2 with
            | false => simp [throttledAttempts, hc, h2, t0, t1, t2]
            | true => simp [throttledAttempts, t0, t1, t2]

theorem leadingThrottled_le (env : Env) (c : Nat) : leadingThrottled env c ≤ 3 := by
  unfold leadingThrottled
  split_ifs <;> omega

theorem sleepsOf_throttledAttempts (e : Option String) :
    ∀ k j, sleepsOf (throttledAttempts e k j) = (List.range k).map (fun t => j + t + 1)
  | 0, _ => rfl
  | k + 1, j => by
    simp only [throttledAttempts, sleepsOf, sleepsOf_throttledAttempts e k (j + 1),
      List.range_succ_eq_map, List.map_cons, List.map_map]
    congr 1
    apply List.map_congr_left
    intro t _
    simp only [Function.comp]
    omega

/-- The run of `deleteAll` around a record that the delete loop reaches. -/
theorem deleteAll_at_record (env : Env) (fuel : Nat) (calls : List Event)
    (pre : List SuppressedDestinationSummary) (d : SuppressedDestinationSummary)
    (post : List SuppressedDestinationSummary) (preEvents : List Event) (c : Nat)
    (hlist : getAllDestinations env fuel = (calls, some (.ok (pre ++ d :: post))))
    (hconf : confirmation env = "delete")
    (hpre : deleteLoop env (pre ++ d :: post).length 0 0 pre = ⟨preEvents, c, .returned⟩) :
    deleteAll env fuel
      = match (deleteAttempts env d.EmailAddress 3 0 c).status with
        | .returned =>
          ⟨calls ++ deletePrompt env.rangeOrder (pre ++ d :: post)
            ++ Event.print "Deleting suppressed email destinations:\n"
              :: ((preEvents ++ (deleteAttempts env d.EmailAddress 3 0 c).events
                  ++ Event.print ("\rProgress: " ++ toString (pre.length + 1) ++ "/"
                      ++ toString (pre ++ d :: post).length ++ "\n")
                    :: (deleteLoop env (pre ++ d :: post).length (pre.length + 1)
                        (deleteAttempts env d.EmailAddress 3 0 c).deleteCalls post).events)
                ++ (if (deleteLoop env (pre ++ d :: post).length (pre.length + 1)
                        (deleteAttempts env d.EmailAddress 3 0 c).deleteCalls post).status
                      = .returned
                    then [Event.print "\nDeletion complete.\n"] else [])),
            (deleteLoop env (pre ++ d :: post).length (pre.length + 1)
              (deleteAttempts env d.EmailAddress 3 0 c).deleteCalls post).status⟩
        | s =>
          ⟨calls ++ deletePrompt env.rangeOrder (pre ++ d :: post)
            ++ Event.print "Deleting suppressed email destinations:\n"
              :: (preEvents ++ (deleteAttempts env d.EmailAddress 3 0 c).events), s⟩ := by
  have hl := deleteLoop_append env (pre ++ d :: post).length pre 0 0 (d :: post) preEvents c hpre
  simp only [Nat.zero_add] at hl
  rw [deleteAll_confirmed env fuel calls _ hlist hconf, hl]
  cases ha : deleteAttempts env d.EmailAddress 3 0 c with
  | mk ev dc st =>
    cases st with
    | returned =>
      rw [deleteLoop_cons_returned env _ pre.length c d post ev dc ha]
      simp [progressLine]
    | exited code =>
      rw [deleteLoop_cons_exited env _ pre.length c d post ev dc code ha]
      simp
    | panicked =>
      have : (deleteLoop env (pre ++ d :: post).length pre.length c (d :: post))
          = ⟨ev, dc, .panicked⟩ := by simp [deleteLoop, ha]
      rw [this]
      simp
    | outOfFuel =>
      have : (deleteLoop env (pre ++ d :: post).length pre.length c (d :: post))
          = ⟨ev, dc, .outOfFuel⟩ := by simp [deleteLoop, ha]
      rw [this]
      simp

/-- The delete calls of the loop for one address are calls for that address,
at least one and at most as many as the loop has iterations. -/
theorem deleteAttempts_calls_replicate (env : Env) (e : Option String) :
    ∀ remaining j c, ∃ m, 1 ≤ m ∧ m ≤ remaining + 1
      ∧ deleteCallsOf (deleteAttempts env e (remaining + 1) j c).events = List.replicate m e
  | 0, j, c => by
    refine ⟨1, by omega, by omega, ?_⟩
    simp only [deleteAttempts]
    cases hd : env.DeleteSuppressedDestination c with
    | none => simp [deleteCallsOf]
    | some err =>
      by_cases ht : isThrottling err = true
      · simp [ht, deleteCallsOf]
      · simp [ht, deleteCallsOf]
  | remaining + 1, j, c => by
    obtain ⟨m, hm1, hm2, hm⟩ := deleteAttempts_calls_replicate env e remaining (j + 1) (c + 1)
    rw [deleteAttempts]
    cases hd : env.DeleteSuppressedDestination c with
    | none => exact ⟨1, by omega, by omega, by simp [deleteCallsOf]⟩
    | some err =>
      by_cases ht : isThrottling err = true
      · refine ⟨m + 1, by omega, by omega, ?_⟩
        simp only [ht, if_true, deleteCallsOf, hm, List.replicate_succ]
      · exact ⟨1, by omega, by omega, by simp [ht, deleteCallsOf]⟩

/-- The delete calls of the delete loop go record by record, in listing order:
each record that the loop comes to gets between 1 and 3 calls, all of them for
its own address. -/
theorem deleteLoop_calls (env : Env) (total : Nat) :
    ∀ (destinations : List SuppressedDestinationSummary) (i c : Nat),
      ∃ counts : List Nat, counts.length ≤ destinations.length
        ∧ (∀ m ∈ counts, 1 ≤ m ∧ m ≤ 3)
        ∧ deleteCallsOf (deleteLoop env total i c destinations).events
          = ((destinations.zip counts).map
              (fun p => List.replicate p.2 p.1.EmailAddress)).flatten
  | [], _, _ => ⟨[], by simp, by simp, by simp [deleteLoop, deleteCallsOf]⟩
  | d :: rest, i, c => by
    obtain ⟨m, hm1, hm2, hm⟩ := deleteAttempts_calls_replicate env d.EmailAddress 2 0 c
    cases ha : deleteAttempts env d.EmailAddress 3 0 c with
    | mk ev dc st =>
      rw [ha] at hm
      simp only at hm
      cases st with
      | returned =>
        obtain ⟨counts, hl, hb, hc⟩ := deleteLoop_calls env total rest (i + 1) dc
        refine ⟨m :: counts, by simpa using hl, ?_, ?_⟩
        · intro x hx
          rcases List.mem_cons.mp hx with rfl | hx
          · exact ⟨hm1, hm2⟩
          · exact hb x hx
        · rw [deleteLoop_cons_returned env total i c d rest ev dc ha]
          simp [deleteCallsOf_append, deleteCallsOf, hm, hc]
      | exited code =>
        refine ⟨[m], by simp, ?_, ?_⟩
        · intro x hx
          rw [List.mem_singleton.mp hx]
          exact ⟨hm1, hm2⟩
        · rw [deleteLoop_cons_exited env total i c d rest ev dc code ha]
          simp [hm]
      | panicked =>
        refine ⟨[m], by simp, ?_, ?_⟩
        · intro x hx
          rw [List.mem_singleton.mp hx]
          exact ⟨hm1, hm2⟩
        · simp [deleteLoop, ha, hm]
      | outOfFuel =>
        refine ⟨[m], by simp, ?_, ?_⟩
        · intro x hx
          rw [List.mem_singleton.mp hx]
          exact ⟨hm1, hm2⟩
        · simp [deleteLoop, ha, hm]

/-- The delete calls of `deleteAll` past an accepted confirmation are those of
the delete loop. -/
theorem deleteCallsOf_deleteAll (env : Env) (fuel : Nat) (calls : List Event)
    (destinations : List SuppressedDestinationSummary)
    (hlist : getAllDestinations env fuel = (calls, some (.ok destinations)))
    (hconf : confirmation env = "delete") :
    deleteCallsOf (deleteAll env fuel).events
      = deleteCallsOf (deleteLoop env destinations.length 0 0 destinations).events := by
  have hcalls : deleteCallsOf calls = [] := by
    have := deleteCallsOf_getAllDestinations env fuel
    rw [hlist] at this
    exact this
  rw [deleteAll_confirmed env fuel calls _ hlist hconf]
  simp only [deleteCallsOf_append, deleteCallsOf_deletePrompt, hcalls, List.nil_append]
  simp only [deleteCallsOf, deleteCallsOf_append]
  split_ifs <;> simp [deleteCallsOf]

/-! ## Theorems for the claims -/

/-- C1: when the service answers the listing calls with N = `pages.length + 1`
pages, of which all but the last carry a continuation token and the last
carries none, `getAllDestinations` (with any step budget of at least N) makes
exactly N listing calls, the first without a token and each later one with the
token of the page before, and returns without error the records of the pages,
concatenated in page order. -/
theorem getAllDestinations_concatenates_pages (env : Env)
    (pages : List ListSuppressedDestinationsOutput) (last : ListSuppressedDestinationsOutput)
    (fuel : Nat)
    (hmore : ∀ page ∈ pages, page.NextToken ≠ none)
    (hlast : last.NextToken = none)
    (hresp : ∀ k page, (pages ++ [last])[k]? = some page →
      env.ListSuppressedDestinations k = .ok page)
    (hfuel : pages.length + 1 ≤ fuel) :
    getAllDestinations env fuel
      = (Event.listCall none :: pages.map (fun page => Event.listCall page.NextToken),
          some (.ok ((pages ++ [last]).map
            (fun page => page.SuppressedDestinationSummaries)).flatten)) := by
  have h := getAllDestinationsLoop_pages env last hlast pages fuel 0 none [] hmore
    (fun j page hj => by simpa using hresp j page hj) hfuel
  simpa [getAllDestinations] using h

/-- C1 at three pages of one, zero and two records. -/
theorem getAllDestinations_concatenates_pages_witness :
    getAllDestinations
        (sampleEnv [⟨[⟨some "a@x.com", "BOUNCE", some "t1"⟩], some "p1"⟩, ⟨[], some "p2"⟩,
          ⟨[⟨some "b@x.com", "COMPLAINT", some "t2"⟩, ⟨some "c@x.com", "BOUNCE", some "t3"⟩], none⟩]
          (fun _ => none) "") 7
      = ([Event.listCall none, Event.listCall (some "p1"), Event.listCall (some "p2")],
          some (.ok [⟨some "a@x.com", "BOUNCE", some "t1"⟩, ⟨some "b@x.com", "COMPLAINT", some "t2"⟩,
            ⟨some "c@x.com", "BOUNCE", some "t3"⟩])) :=
  getAllDestinations_concatenates_pages _
    [⟨[⟨some "a@x.com", "BOUNCE", some "t1"⟩], some "p1"⟩, ⟨[], some "p2"⟩]
    ⟨[⟨some "b@x.com", "COMPLAINT", some "t2"⟩, ⟨some "c@x.com", "BOUNCE", some "t3"⟩], none⟩ 7
    (by decide) rfl
    (fun k page h => by
      simp only [List.cons_append, List.nil_append] at h
      simp only [sampleEnv, h])
    (by decide)

/-- C3: for every input sequence and every order of ranging over the map,
`showSummary` writes the line `Reason, Count`, one line per entry of a list of
(reason, count) entries, and the line `TOTAL, n`, where: every reason present
in the input is the reason of exactly one entry, the counts of the entries sum
to n, and n is the length of the input; for the empty input there is no reason
line and the total is 0. -/
theorem showSummary_counts_sum_to_total :
    (∀ (order : RangeOrder) (destinations : List SuppressedDestinationSummary),
      ∃ entries : List (String × Nat),
        showSummary order destinations
          = Event.print "Reason, Count\n"
            :: (entries.map (fun e => Event.print (e.1 ++ ", " ++ toString e.2 ++ "\n"))
                ++ [Event.print ("TOTAL, " ++ toString destinations.length ++ "\n")])
        ∧ (∀ r ∈ destinations.map (fun d => d.Reason), (entries.map Prod.fst).count r = 1)
        ∧ (entries.map Prod.snd).sum = destinations.length)
    ∧ (∀ order : RangeOrder,
        showSummary order [] = [Event.print "Reason, Count\n", Event.print "TOTAL, 0\n"]) := by
  constructor
  · intro order destinations
    obtain ⟨hn, hk, hs, _⟩ := reasonLines_spec order destinations
    refine ⟨reasonLines order destinations, rfl, ?_, hs⟩
    intro r hr
    exact List.count_eq_one_of_mem hn ((hk r).mpr hr)
  · intro order
    have hnil : reasonLines order [] = [] := by
      have := order.perm (reasonCount [])
      simpa [reasonLines, reasonCount] using this
    simp only [showSummary, hnil]
    decide

/-- C4, as the claim words it, fails: for the input of the end-to-end example
the lines written are `BOUNCE, 2`, `COMPLAINT, 1` and `TOTAL, 3`, with a space
after the comma, and none of `BOUNCE,2`, `COMPLAINT,1`, `TOTAL,3` is written,
as a line or inside one. -/
theorem showSummary_lines_counterexample :
    showSummary inOrder threeDestinations
      = [Event.print "Reason, Count\n", Event.print "BOUNCE, 2\n",
          Event.print "COMPLAINT, 1\n", Event.print "TOTAL, 3\n"]
    ∧ Event.print "BOUNCE,2\n" ∉ showSummary inOrder threeDestinations
    ∧ Event.print "COMPLAINT,1\n" ∉ showSummary inOrder threeDestinations
    ∧ Event.print "TOTAL,3\n" ∉ showSummary inOrder threeDestinations
    ∧ (printsOf (showSummary inOrder threeDestinations)).all
        (fun text => !Contains text "BOUNCE,2" && !Contains text "COMPLAINT,1"
          && !Contains text "TOTAL,3") = true := by
  decide

/-- C4, amended: for every input sequence and every order of ranging over the
map, the reason lines that `showSummary` writes are `r, c` for the entries
(r, c) of a list in which: each entry has c equal to the number of destinations
of the input whose reason is r, and r occurs in the input; every reason r that
occurs in the input has its entry, with that count; and no reason has two
entries.  For the input [a@x.com BOUNCE, b@x.com COMPLAINT, c@x.com BOUNCE]
the output is the line `Reason, Count`, then the two lines `BOUNCE, 2` and
`COMPLAINT, 1` in either order, then the line `TOTAL, 3`. -/
theorem showSummary_count_per_reason :
    (∀ (order : RangeOrder) (destinations : List SuppressedDestinationSummary),
      ∃ entries : List (String × Nat),
        showSummary order destinations
          = Event.print "Reason, Count\n"
            :: (entries.map (fun e => Event.print (e.1 ++ ", " ++ toString e.2 ++ "\n"))
                ++ [Event.print ("TOTAL, " ++ toString destinations.length ++ "\n")])
        ∧ (∀ r c, (r, c) ∈ entries →
            c = destinations.countP (fun d => d.Reason = r)
            ∧ r ∈ destinations.map (fun d => d.Reason))
        ∧ (∀ r ∈ destinations.map (fun d => d.Reason),
            (r, destinations.countP (fun d => d.Reason = r)) ∈ entries)
        ∧ (entries.map Prod.fst).Nodup)
    ∧ (∀ order : RangeOrder,
        showSummary order threeDestinations
          = [Event.print "Reason, Count\n", Event.print "BOUNCE, 2\n",
              Event.print "COMPLAINT, 1\n", Event.print "TOTAL, 3\n"]
        ∨ showSummary order threeDestinations
          = [Event.print "Reason, Count\n", Event.print "COMPLAINT, 1\n",
              Event.print "BOUNCE, 2\n", Event.print "TOTAL, 3\n"]) := by
  constructor
  · intro order destinations
    obtain ⟨hn, hk, _, hc⟩ := reasonLines_spec order destinations
    refine ⟨reasonLines order destinations, rfl, ?_, ?_, hn⟩
    · intro r c hrc
      exact ⟨hc r c hrc, (hk r).mp (List.mem_map.mpr ⟨(r, c), hrc, rfl⟩)⟩
    · intro r hr
      obtain ⟨⟨r', c⟩, hmem, hfst⟩ := List.mem_map.mp ((hk r).mpr hr)
      simp only at hfst
      subst hfst
      rw [← hc r' c hmem]
      exact hmem
  · intro order
    have hp : (reasonLines order threeDestinations).Perm [("BOUNCE", 2), ("COMPLAINT", 1)] :=
      order.perm _
    have hl := hp.length_eq
    match hq : reasonLines order threeDestinations, hp, hl with
    | [x, y], hp, _ =>
      have hx : x ∈ [(("BOUNCE", 2) : String × Nat), ("COMPLAINT", 1)] :=
        hp.subset (by simp)
      have hy : y ∈ [(("BOUNCE", 2) : String × Nat), ("COMPLAINT", 1)] :=
        hp.subset (by simp)
      have hnd : [x, y].Nodup := hp.nodup_iff.mpr (by decide)
      simp only [List.mem_cons, List.mem_singleton, List.not_mem_nil, or_false] at hx hy
      simp only [showSummary, hq]
      rcases hx with rfl | rfl <;> rcases hy with rfl | rfl
      · simp at hnd
      · left; decide
      · right; decide
      · simp at hnd
    | [], _, hl => simp at hl
    | [_], _, hl => simp at hl
    | _ :: _ :: _ :: _, _, hl => simp at hl

/-- C7, as the claim words it, fails.  The header line that `listAll` writes is
`Email Address,Reason,Last Update Time`, with spaces inside the column names,
and the text `EmailAddress,Reason,LastUpdateTime` is not written, as a line or
inside one.  For a destination whose `EmailAddress` is a nil pointer the
dereference of line 66 panics: the header is written, no row is, and the
process ends by the panic.  For a destination whose address holds a line break
the row takes two lines. -/
theorem listAll_header_counterexample :
    listAll (sampleEnv [⟨[], none⟩] (fun _ => none) "") 1
      = ⟨[Event.listCall none, Event.print "Email Address,Reason,Last Update Time\n"],
          .returned⟩
    ∧ Event.print "EmailAddress,Reason,LastUpdateTime\n"
        ∉ (listAll (sampleEnv [⟨[], none⟩] (fun _ => none) "") 1).events
    ∧ (printsOf (listAll (sampleEnv [⟨[], none⟩] (fun _ => none) "") 1).events).all
        (fun text => !Contains text "EmailAddress,Reason,LastUpdateTime") = true
    ∧ listAll (sampleEnv [⟨[⟨none, "BOUNCE", some "2024-01-01 00:00:00 +0000 UTC"⟩], none⟩]
        (fun _ => none) "") 1
      = ⟨[Event.listCall none, Event.print "Email Address,Reason,Last Update Time\n"],
          .panicked⟩
    ∧ printedLines (listAll
        (sampleEnv [⟨[⟨some "a\nb@x.com", "BOUNCE", some "2024-01-01 00:00:00 +0000 UTC"⟩],
          none⟩] (fun _ => none) "") 1).events = 3 := by
  decide

/-- C7, amended: when the listing returns a sequence of destinations whose
`EmailAddress` and `LastUpdateTime` are all set, `listAll` writes first the
header line `Email Address,Reason,Last Update Time` and then exactly one row per
destination, in listing order, each row being the email address, the reason and
the last update time of the destination separated by commas and ended by a line
break, and returns; when no field holds a line break, the number of lines
written is the number of destinations plus one.  Each destination is given here
by its three texts. -/
theorem listAll_header_then_rows (env : Env) (fuel : Nat) (calls : List Event)
    (rows : List (String × String × String))
    (hlist : getAllDestinations env fuel
      = (calls, some (.ok (rows.map (fun r => ⟨some r.1, r.2.1, some r.2.2⟩))))) :
    listAll env fuel
      = ⟨calls ++ Event.print "Email Address,Reason,Last Update Time\n"
          :: rows.map (fun r => Event.print (r.1 ++ "," ++ r.2.1 ++ "," ++ r.2.2 ++ "\n")),
          .returned⟩
    ∧ printsOf (listAll env fuel).events
      = "Email Address,Reason,Last Update Time\n"
        :: rows.map (fun r => r.1 ++ "," ++ r.2.1 ++ "," ++ r.2.2 ++ "\n")
    ∧ ((∀ r ∈ rows, '\n' ∉ r.1.toList ∧ '\n' ∉ r.2.1.toList ∧ '\n' ∉ r.2.2.toList) →
        printedLines (listAll env fuel).events = rows.length + 1) := by
  have hcalls : printsOf calls = [] := by
    have := printsOf_getAllDestinations env fuel
    rw [hlist] at this
    exact this
  have hrun : listAll env fuel
      = ⟨calls ++ Event.print "Email Address,Reason,Last Update Time\n"
          :: rows.map (fun r => Event.print (r.1 ++ "," ++ r.2.1 ++ "," ++ r.2.2 ++ "\n")),
          .returned⟩ := by
    simp only [listAll, hlist, listRows_set]
  have hprints : printsOf (listAll env fuel).events
      = "Email Address,Reason,Last Update Time\n"
        :: rows.map (fun r => r.1 ++ "," ++ r.2.1 ++ "," ++ r.2.2 ++ "\n") := by
    rw [hrun]
    simp only [printsOf_append, hcalls, List.nil_append, printsOf, printsOf_map_print]
  refine ⟨hrun, hprints, ?_⟩
  intro hline
  simp only [printedLines, stdoutOf, hprints, List.map_cons, List.flatten_cons,
    List.count_append]
  have hheader : List.count '\n' "Email Address,Reason,Last Update Time\n".toList = 1 := by
    decide
  rw [hheader, count_lineBreaks_rows rows hline]
  omega

/-- C7, amended, at the three destinations of the end-to-end example. -/
theorem listAll_header_then_rows_witness :
    listAll (sampleEnv [⟨threeDestinations, none⟩] (fun _ => none) "") 1
      = ⟨[Event.listCall none,
          Event.print "Email Address,Reason,Last Update Time\n",
          Event.print "a@x.com,BOUNCE,2024-01-01 00:00:00 +0000 UTC\n",
          Event.print "b@x.com,COMPLAINT,2024-01-02 00:00:00 +0000 UTC\n",
          Event.print "c@x.com,BOUNCE,2024-01-03 00:00:00 +0000 UTC\n"], .returned⟩
    ∧ printedLines
        (listAll (sampleEnv [⟨threeDestinations, none⟩] (fun _ => none) "") 1).events = 4 :=
  have h := listAll_header_then_rows
    (sampleEnv [⟨threeDestinations, none⟩] (fun _ => none) "") 1 [Event.listCall none]
    [("a@x.com", "BOUNCE", "2024-01-01 00:00:00 +0000 UTC"),
     ("b@x.com", "COMPLAINT", "2024-01-02 00:00:00 +0000 UTC"),
     ("c@x.com", "BOUNCE", "2024-01-03 00:00:00 +0000 UTC")] rfl
  ⟨h.1.trans (by decide), h.2.2 (by decide)⟩

/-- C5: in `deleteAll` past an accepted confirmation, let the records before
record `d` be processed without an exit, with `c` delete calls made.  If the
first `k ≤ 2` attempts for `d` are answered with a throttling error and attempt
`k + 1` succeeds, then exactly `k + 1` delete calls are made for `d` (3 calls
for `k = 2`), each throttled attempt `j` followed by a sleep of `j + 1`
seconds; the process does not exit there; the progress line of `d` is written
and the loop goes on with the next record. -/
theorem deleteAll_retries_throttled_record (env : Env) (fuel : Nat) (calls : List Event)
    (pre : List SuppressedDestinationSummary) (d : SuppressedDestinationSummary)
    (post : List SuppressedDestinationSummary) (preEvents : List Event) (c k : Nat)
    (hlist : getAllDestinations env fuel = (calls, some (.ok (pre ++ d :: post))))
    (hconf : confirmation env = "delete")
    (hpre : deleteLoop env (pre ++ d :: post).length 0 0 pre = ⟨preEvents, c, .returned⟩)
    (hk : k ≤ 2)
    (hthr : ∀ t, t < k → throttled env (c + t) = true)
    (hok : env.DeleteSuppressedDestination (c + k) = none) :
    let total := (pre ++ d :: post).length
    let rest := deleteLoop env total (pre.length + 1) (c + k + 1) post
    deleteAttempts env d.EmailAddress 3 0 c
      = ⟨throttledAttempts d.EmailAddress k 0 ++ [Event.deleteCall d.EmailAddress],
          c + k + 1, .returned⟩
    ∧ deleteCallsOf (deleteAttempts env d.EmailAddress 3 0 c).events
      = List.replicate (k + 1) d.EmailAddress
    ∧ deleteAll env fuel
      = ⟨calls ++ deletePrompt env.rangeOrder (pre ++ d :: post)
          ++ Event.print "Deleting suppressed email destinations:\n"
            :: ((preEvents
                ++ (throttledAttempts d.EmailAddress k 0 ++ [Event.deleteCall d.EmailAddress])
                ++ Event.print ("\rProgress: " ++ toString (pre.length + 1) ++ "/"
                    ++ toString total ++ "\n")
                  :: rest.events)
              ++ (if rest.status = .returned
                  then [Event.print "\nDeletion complete.\n"] else [])),
          rest.status⟩ := by
  intro total rest
  have ha := deleteAttempts_success env d.EmailAddress k c hk hthr hok
  have hl := deleteLoop_append env total pre 0 0 (d :: post) preEvents c hpre
  rw [deleteLoop_cons_returned env total (0 + pre.length) c d post _ _ ha] at hl
  simp only [Nat.zero_add] at hl
  refine ⟨ha, ?_, ?_⟩
  · rw [ha]
    simp [deleteCallsOf_append, deleteCallsOf_throttledAttempts, deleteCallsOf,
      List.replicate_succ']
  · rw [deleteAll_confirmed env fuel calls _ hlist hconf, hl]
    simp [progressLine, rest, total]

/-- C5 at three records, the second of which is throttled twice. -/
theorem deleteAll_retries_throttled_record_witness :
    deleteAll
        (sampleEnv [⟨threeDestinations, none⟩]
          (fun k => if k = 1 ∨ k = 2 then some "TooManyRequestsException: Rate exceeded"
            else none)
          "delete\n") 1
      = ⟨[Event.listCall none,
          Event.print "You are about to delete the following suppressed email destinations:\n",
          Event.print "Reason, Count\n",
          Event.print "BOUNCE, 2\n",
          Event.print "COMPLAINT, 1\n",
          Event.print "TOTAL, 3\n",
          Event.print "Do you really want to delete all suppressed email destinations? This action cannot be undone.\n",
          Event.print "If you want to continue, type 'delete' to proceed: ",
          Event.print "Deleting suppressed email destinations:\n",
          Event.deleteCall (some "a@x.com"),
          Event.print "\rProgress: 1/3\n",
          Event.deleteCall (some "b@x.com"),
          Event.sleep 1,
          Event.deleteCall (some "b@x.com"),
          Event.sleep 2,
          Event.deleteCall (some "b@x.com"),
          Event.print "\rProgress: 2/3\n",
          Event.deleteCall (some "c@x.com"),
          Event.print "\rProgress: 3/3\n",
          Event.print "\nDeletion complete.\n"], .returned⟩ :=
  (deleteAll_retries_throttled_record
    (sampleEnv [⟨threeDestinations, none⟩]
      (fun k => if k = 1 ∨ k = 2 then some "TooManyRequestsException: Rate exceeded"
        else none)
      "delete\n") 1
    [Event.listCall none]
    [⟨some "a@x.com", "BOUNCE", some "2024-01-01 00:00:00 +0000 UTC"⟩]
    ⟨some "b@x.com", "COMPLAINT", some "2024-01-02 00:00:00 +0000 UTC"⟩
    [⟨some "c@x.com", "BOUNCE", some "2024-01-03 00:00:00 +0000 UTC"⟩]
    [Event.deleteCall (some "a@x.com"), Event.print "\rProgress: 1/3\n"] 1 2
    rfl (by decide) (by decide) (by decide) (by decide) (by decide)).2.2.trans (by decide)

/-- C6: in `deleteAll` past an accepted confirmation, let the records before
record `d` be processed without an exit.  If an attempt for `d` (the first, or
a later one after throttled attempts) is answered with an error that is not a
throttling error, the run ends there with exit status 1: after that delete call
only the error is written, so there is no further delete call for `d` or for
any later record, no progress line for `d` and no completion message; the
delete calls made for the records before `d` stay as they were made, none is
taken back. -/
theorem deleteAll_fatal_error_exits (env : Env) (fuel : Nat) (calls : List Event)
    (pre : List SuppressedDestinationSummary) (d : SuppressedDestinationSummary)
    (post : List SuppressedDestinationSummary) (preEvents : List Event) (c k : Nat)
    (err : String)
    (hlist : getAllDestinations env fuel = (calls, some (.ok (pre ++ d :: post))))
    (hconf : confirmation env = "delete")
    (hpre : deleteLoop env (pre ++ d :: post).length 0 0 pre = ⟨preEvents, c, .returned⟩)
    (hk : k ≤ 2)
    (hthr : ∀ t, t < k → throttled env (c + t) = true)
    (herr : env.DeleteSuppressedDestination (c + k) = some err)
    (hnot : isThrottling err = false) :
    deleteAll env fuel
      = ⟨calls ++ deletePrompt env.rangeOrder (pre ++ d :: post)
          ++ Event.print "Deleting suppressed email destinations:\n"
            :: (preEvents ++ (throttledAttempts d.EmailAddress k 0
                ++ [Event.deleteCall d.EmailAddress, Event.print (err ++ "\n")])),
          .exited 1⟩
    ∧ deleteCallsOf (deleteAll env fuel).events
      = deleteCallsOf preEvents ++ List.replicate (k + 1) d.EmailAddress := by
  have ha := deleteAttempts_fatal env d.EmailAddress k c err hk hthr herr hnot
  have hl := deleteLoop_append env (pre ++ d :: post).length pre 0 0 (d :: post) preEvents c hpre
  rw [deleteLoop_cons_exited env _ (0 + pre.length) c d post _ _ 1 ha] at hl
  have hrun : deleteAll env fuel
      = ⟨calls ++ deletePrompt env.rangeOrder (pre ++ d :: post)
          ++ Event.print "Deleting suppressed email destinations:\n"
            :: (preEvents ++ (throttledAttempts d.EmailAddress k 0
                ++ [Event.deleteCall d.EmailAddress, Event.print (err ++ "\n")])),
          .exited 1⟩ := by
    rw [deleteAll_confirmed env fuel calls _ hlist hconf, hl]
    simp
  refine ⟨hrun, ?_⟩
  have hcalls : deleteCallsOf calls = [] := by
    have := deleteCallsOf_getAllDestinations env fuel
    rw [hlist] at this
    exact this
  rw [hrun]
  simp only [deleteCallsOf_append, deleteCallsOf_deletePrompt, hcalls, List.nil_append]
  simp [deleteCallsOf, deleteCallsOf_append, deleteCallsOf_throttledAttempts,
    List.replicate_succ']

/-- C6 at three records, the second of which is answered with a throttling
error and then with another error. -/
theorem deleteAll_fatal_error_exits_witness :
    deleteAll
        (sampleEnv [⟨threeDestinations, none⟩]
          (fun k => if k = 1 then some "TooManyRequestsException: Rate exceeded"
            else if k = 2 then some "NotFoundException: no such destination" else none)
          "delete\n") 1
      = ⟨[Event.listCall none,
          Event.print "You are about to delete the following suppressed email destinations:\n",
          Event.print "Reason, Count\n",
          Event.print "BOUNCE, 2\n",
          Event.print "COMPLAINT, 1\n",
          Event.print "TOTAL, 3\n",
          Event.print "Do you really want to delete all suppressed email destinations? This action cannot be undone.\n",
          Event.print "If you want to continue, type 'delete' to proceed: ",
          Event.print "Deleting suppressed email destinations:\n",
          Event.deleteCall (some "a@x.com"),
          Event.print "\rProgress: 1/3\n",
          Event.deleteCall (some "b@x.com"),
          Event.sleep 1,
          Event.deleteCall (some "b@x.com"),
          Event.print "NotFoundException: no such destination\n"], .exited 1⟩ :=
  (deleteAll_fatal_error_exits
    (sampleEnv [⟨threeDestinations, none⟩]
      (fun k => if k = 1 then some "TooManyRequestsException: Rate exceeded"
        else if k = 2 then some "NotFoundException: no such destination" else none)
      "delete\n") 1
    [Event.listCall none]
    [⟨some "a@x.com", "BOUNCE", some "2024-01-01 00:00:00 +0000 UTC"⟩]
    ⟨some "b@x.com", "COMPLAINT", some "2024-01-02 00:00:00 +0000 UTC"⟩
    [⟨some "c@x.com", "BOUNCE", some "2024-01-03 00:00:00 +0000 UTC"⟩]
    [Event.deleteCall (some "a@x.com"), Event.print "\rProgress: 1/3\n"] 1 1
    "NotFoundException: no such destination"
    rfl (by decide) (by decide) (by decide) (by decide) (by decide) (by decide)).1.trans
    (by decide)

/-- C8, as the claim words it, fails: for a record whose three attempts are all
answered with a throttling error, `deleteAll` sleeps 1 second, 2 seconds and
then 3 seconds; the delay of the third iteration is slept on before the loop
ends. -/
theorem deleteAll_sleeps_counterexample :
    sleepsOf (deleteAll
        (sampleEnv [⟨[⟨some "a@x.com", "BOUNCE", some "2024-01-01 00:00:00 +0000 UTC"⟩], none⟩]
          (fun _ => some "TooManyRequestsException: Rate exceeded") "delete\n") 1).events
      = [1, 2, 3] := by
  decide

/-- C8, amended: in `deleteAll` past an accepted confirmation, let the records
before record `d` be processed without an exit, with `c` delete calls made, and
let `k` be the number of leading attempts for `d`, among its three, that are
answered with a throttling error.  Then the loop for `d` makes `k` throttled
attempts, attempt `j` (`j` = 0, 1, 2) being a delete call followed by a sleep of
`j + 1` seconds, the third attempt included, and, when `k < 3`, one more delete
call, whose error, if any, is written.  So the sleeps for `d` are 1, ..., `k`
seconds, and the delete calls for `d` are `k + 1`, or 3 when `k = 3`: after a
throttled third attempt the 3-second delay is slept and the loop ends without a
further attempt.  These events stand in the run of `deleteAll` between those of
the records before `d` and the progress line of `d`. -/
theorem deleteAll_sleeps_per_record (env : Env) (fuel : Nat) (calls : List Event)
    (pre : List SuppressedDestinationSummary) (d : SuppressedDestinationSummary)
    (post : List SuppressedDestinationSummary) (preEvents : List Event) (c : Nat)
    (hlist : getAllDestinations env fuel = (calls, some (.ok (pre ++ d :: post))))
    (hconf : confirmation env = "delete")
    (hpre : deleteLoop env (pre ++ d :: post).length 0 0 pre = ⟨preEvents, c, .returned⟩) :
    let total := (pre ++ d :: post).length
    let k := leadingThrottled env c
    let attempts := deleteAttempts env d.EmailAddress 3 0 c
    let rest := deleteLoop env total (pre.length + 1) attempts.deleteCalls post
    k ≤ 3
    ∧ attempts.events
      = throttledAttempts d.EmailAddress k 0
        ++ (if k = 3 then []
            else match env.DeleteSuppressedDestination (c + k) with
              | none => [Event.deleteCall d.EmailAddress]
              | some err => [Event.deleteCall d.EmailAddress, Event.print (err ++ "\n")])
    ∧ sleepsOf attempts.events = (List.range k).map (fun j => j + 1)
    ∧ deleteCallsOf attempts.events = List.replicate (min (k + 1) 3) d.EmailAddress
    ∧ (k = 3 →
        attempts = ⟨[Event.deleteCall d.EmailAddress, Event.sleep 1,
          Event.deleteCall d.EmailAddress, Event.sleep 2,
          Event.deleteCall d.EmailAddress, Event.sleep 3], c + 3, .returned⟩)
    ∧ deleteAll env fuel
      = match attempts.status with
        | .returned =>
          ⟨calls ++ deletePrompt env.rangeOrder (pre ++ d :: post)
            ++ Event.print "Deleting suppressed email destinations:\n"
              :: ((preEvents ++ attempts.events
                  ++ Event.print ("\rProgress: " ++ toString (pre.length + 1) ++ "/"
                      ++ toString total ++ "\n")
                    :: rest.events)
                ++ (if rest.status = .returned
                    then [Event.print "\nDeletion complete.\n"] else [])),
            rest.status⟩
        | s =>
          ⟨calls ++ deletePrompt env.rangeOrder (pre ++ d :: post)
            ++ Event.print "Deleting suppressed email destinations:\n"
              :: (preEvents ++ attempts.events), s⟩ := by
  intro total k attempts rest
  have he := deleteAttempts_eq env d.EmailAddress c
  have hev : attempts.events
      = throttledAttempts d.EmailAddress k 0
        ++ (if k = 3 then []
            else match env.DeleteSuppressedDestination (c + k) with
              | none => [Event.deleteCall d.EmailAddress]
              | some err => [Event.deleteCall d.EmailAddress, Event.print (err ++ "\n")]) := by
    simp only [attempts, k]
    rw [he]
  refine ⟨leadingThrottled_le env c, hev, ?_, ?_, ?_,
    deleteAll_at_record env fuel calls pre d post preEvents c hlist hconf hpre⟩
  · rw [hev, sleepsOf_append, sleepsOf_throttledAttempts]
    have : sleepsOf (if k = 3 then []
        else match env.DeleteSuppressedDestination (c + k) with
          | none => [Event.deleteCall d.EmailAddress]
          | some err => [Event.deleteCall d.EmailAddress, Event.print (err ++ "\n")]) = [] := by
      split_ifs
      · rfl
      · cases env.DeleteSuppressedDestination (c + k) <;> rfl
    rw [this]
    simp
  · rw [hev, deleteCallsOf_append, deleteCallsOf_throttledAttempts]
    have hk3 := leadingThrottled_le env c
    by_cases h3 : k = 3
    · simp [h3, deleteCallsOf]
    · have hlt : k + 1 ≤ 3 := by
        have : k ≤ 3 := hk3
        omega
      have : deleteCallsOf (if k = 3 then []
          else match env.DeleteSuppressedDestination (c + k) with
            | none => [Event.deleteCall d.EmailAddress]
            | some err => [Event.deleteCall d.EmailAddress, Event.print (err ++ "\n")])
          = [d.EmailAddress] := by
        rw [if_neg h3]
        cases env.DeleteSuppressedDestination (c + k) <;> rfl
      rw [this, Nat.min_eq_left hlt, List.replicate_succ']
  · intro h3
    simp only [attempts]
    rw [he]
    have h3' : leadingThrottled env c = 3 := h3
    simp [h3', throttledAttempts]

/-- C8, amended, at two records: the first is deleted at once, every attempt
for the second is answered with a throttling error. -/
theorem deleteAll_sleeps_per_record_witness :
    deleteAll
        (sampleEnv [⟨[⟨some "a@x.com", "BOUNCE", some "2024-01-01 00:00:00 +0000 UTC"⟩,
            ⟨some "b@x.com", "COMPLAINT", some "2024-01-02 00:00:00 +0000 UTC"⟩], none⟩]
          (fun k => if k = 0 then none else some "TooManyRequestsException: Rate exceeded")
          "delete\n") 1
      = ⟨[Event.listCall none,
          Event.print "You are about to delete the following suppressed email destinations:\n",
          Event.print "Reason, Count\n",
          Event.print "BOUNCE, 1\n",
          Event.print "COMPLAINT, 1\n",
          Event.print "TOTAL, 2\n",
          Event.print "Do you really want to delete all suppressed email destinations? This action cannot be undone.\n",
          Event.print "If you want to continue, type 'delete' to proceed: ",
          Event.print "Deleting suppressed email destinations:\n",
          Event.deleteCall (some "a@x.com"),
          Event.print "\rProgress: 1/2\n",
          Event.deleteCall (some "b@x.com"), Event.sleep 1,
          Event.deleteCall (some "b@x.com"), Event.sleep 2,
          Event.deleteCall (some "b@x.com"), Event.sleep 3,
          Event.print "\rProgress: 2/2\n",
          Event.print "\nDeletion complete.\n"], .returned⟩
    ∧ deleteAttempts
        (sampleEnv [⟨[⟨some "a@x.com", "BOUNCE", some "2024-01-01 00:00:00 +0000 UTC"⟩,
            ⟨some "b@x.com", "COMPLAINT", some "2024-01-02 00:00:00 +0000 UTC"⟩], none⟩]
          (fun k => if k = 0 then none else some "TooManyRequestsException: Rate exceeded")
          "delete\n") (some "b@x.com") 3 0 1
      = ⟨[Event.deleteCall (some "b@x.com"), Event.sleep 1,
          Event.deleteCall (some "b@x.com"), Event.sleep 2,
          Event.deleteCall (some "b@x.com"), Event.sleep 3], 4, .returned⟩ :=
  have h := deleteAll_sleeps_per_record
    (sampleEnv [⟨[⟨some "a@x.com", "BOUNCE", some "2024-01-01 00:00:00 +0000 UTC"⟩,
        ⟨some "b@x.com", "COMPLAINT", some "2024-01-02 00:00:00 +0000 UTC"⟩], none⟩]
      (fun k => if k = 0 then none else some "TooManyRequestsException: Rate exceeded")
      "delete\n") 1
    [Event.listCall none]
    [⟨some "a@x.com", "BOUNCE", some "2024-01-01 00:00:00 +0000 UTC"⟩]
    ⟨some "b@x.com", "COMPLAINT", some "2024-01-02 00:00:00 +0000 UTC"⟩
    []
    [Event.deleteCall (some "a@x.com"), Event.print "\rProgress: 1/2\n"] 1
    rfl (by decide) (by decide)
  ⟨h.2.2.2.2.2.trans (by decide), h.2.2.2.2.1 (by decide)⟩

/-- C9: in `deleteAll` past an accepted confirmation, no record gets more than
3 delete calls, whatever the service answers: the delete calls of the run go
record by record in listing order, each record that the loop comes to getting
between 1 and 3 calls for its address.  Let the records before record
`d` be processed without an exit; if all 3 attempts for `d` are answered with a
throttling error, then exactly 3 delete calls are made for `d`, the process
does not exit, the progress line of `d` is written as for a deleted record, and
the loop goes on with the next record; the run ends with the completion message
when the later records bring no exit, as is the case when no answer is an error
other than throttling. -/
theorem deleteAll_exhausted_retries_go_on (env : Env) (fuel : Nat) (calls : List Event)
    (pre : List SuppressedDestinationSummary) (d : SuppressedDestinationSummary)
    (post : List SuppressedDestinationSummary) (preEvents : List Event) (c : Nat)
    (hlist : getAllDestinations env fuel = (calls, some (.ok (pre ++ d :: post))))
    (hconf : confirmation env = "delete")
    (hpre : deleteLoop env (pre ++ d :: post).length 0 0 pre = ⟨preEvents, c, .returned⟩)
    (hthr : ∀ t, t < 3 → throttled env (c + t) = true) :
    let total := (pre ++ d :: post).length
    let rest := deleteLoop env total (pre.length + 1) (c + 3) post
    (∀ (env' : Env) (e : Option String) (c' : Nat),
      (deleteCallsOf (deleteAttempts env' e 3 0 c').events).length ≤ 3)
    ∧ (∀ (env' : Env) (fuel' : Nat) (calls' : List Event)
        (destinations' : List SuppressedDestinationSummary),
        getAllDestinations env' fuel' = (calls', some (.ok destinations')) →
        confirmation env' = "delete" →
        ∃ counts : List Nat, counts.length ≤ destinations'.length
          ∧ (∀ m ∈ counts, 1 ≤ m ∧ m ≤ 3)
          ∧ deleteCallsOf (deleteAll env' fuel').events
            = ((destinations'.zip counts).map
                (fun p => List.replicate p.2 p.1.EmailAddress)).flatten)
    ∧ deleteAttempts env d.EmailAddress 3 0 c
      = ⟨[Event.deleteCall d.EmailAddress, Event.sleep 1,
          Event.deleteCall d.EmailAddress, Event.sleep 2,
          Event.deleteCall d.EmailAddress, Event.sleep 3], c + 3, .returned⟩
    ∧ deleteAll env fuel
      = ⟨calls ++ deletePrompt env.rangeOrder (pre ++ d :: post)
          ++ Event.print "Deleting suppressed email destinations:\n"
            :: ((preEvents
                ++ [Event.deleteCall d.EmailAddress, Event.sleep 1,
                    Event.deleteCall d.EmailAddress, Event.sleep 2,
                    Event.deleteCall d.EmailAddress, Event.sleep 3]
                ++ Event.print ("\rProgress: " ++ toString (pre.length + 1) ++ "/"
                    ++ toString total ++ "\n")
                  :: rest.events)
              ++ (if rest.status = .returned
                  then [Event.print "\nDeletion complete.\n"] else [])),
          rest.status⟩
    ∧ ((∀ j, env.DeleteSuppressedDestination j = none ∨ throttled env j = true) →
        (deleteAll env fuel).status = .returned
        ∧ (deleteAll env fuel).events.getLast? = some (Event.print "\nDeletion complete.\n")) := by
  intro total rest
  have ha := deleteAttempts_exhausted env d.EmailAddress c hthr
  simp only [throttledAttempts] at ha
  have hl := deleteLoop_append env total pre 0 0 (d :: post) preEvents c hpre
  rw [deleteLoop_cons_returned env total (0 + pre.length) c d post _ _ ha] at hl
  simp only [Nat.zero_add] at hl
  refine ⟨fun env' e c' => deleteAttempts_calls_le env' e 3 0 c', ?_, ha, ?_, ?_⟩
  · intro env' fuel' calls' destinations' hlist' hconf'
    rw [deleteCallsOf_deleteAll env' fuel' calls' destinations' hlist' hconf']
    exact deleteLoop_calls env' destinations'.length destinations' 0 0
  · rw [deleteAll_confirmed env fuel calls _ hlist hconf, hl]
    simp [progressLine, rest, total]
  · intro hall
    have hs := deleteLoop_returned env total hall (pre ++ d :: post) 0 0
    rw [deleteAll_confirmed env fuel calls _ hlist hconf]
    simp only [total] at hs
    simp only [hs, if_true]
    refine ⟨trivial, ?_⟩
    rw [show ∀ (a : List Event) b l x, a ++ b :: (l ++ [x]) = (a ++ b :: l) ++ [x] from
      fun a b l x => by simp]
    exact List.getLast?_concat _

/-- C9 at three records, every delete call being answered with a throttling
error. -/
theorem deleteAll_exhausted_retries_go_on_witness :
    deleteAll
        (sampleEnv [⟨threeDestinations, none⟩]
          (fun _ => some "TooManyRequestsException: Rate exceeded") "delete\n") 1
      = ⟨[Event.listCall none,
          Event.print "You are about to delete the following suppressed email destinations:\n",
          Event.print "Reason, Count\n",
          Event.print "BOUNCE, 2\n",
          Event.print "COMPLAINT, 1\n",
          Event.print "TOTAL, 3\n",
          Event.print "Do you really want to delete all suppressed email destinations? This action cannot be undone.\n",
          Event.print "If you want to continue, type 'delete' to proceed: ",
          Event.print "Deleting suppressed email destinations:\n",
          Event.deleteCall (some "a@x.com"), Event.sleep 1,
          Event.deleteCall (some "a@x.com"), Event.sleep 2,
          Event.deleteCall (some "a@x.com"), Event.sleep 3,
          Event.print "\rProgress: 1/3\n",
          Event.deleteCall (some "b@x.com"), Event.sleep 1,
          Event.deleteCall (some "b@x.com"), Event.sleep 2,
          Event.deleteCall (some "b@x.com"), Event.sleep 3,
          Event.print "\rProgress: 2/3\n",
          Event.deleteCall (some "c@x.com"), Event.sleep 1,
          Event.deleteCall (some "c@x.com"), Event.sleep 2,
          Event.deleteCall (some "c@x.com"), Event.sleep 3,
          Event.print "\rProgress: 3/3\n",
          Event.print "\nDeletion complete.\n"], .returned⟩
    ∧ (deleteAll
        (sampleEnv [⟨threeDestinations, none⟩]
          (fun _ => some "TooManyRequestsException: Rate exceeded") "delete\n") 1).status
      = .returned
    ∧ ∃ counts : List Nat, counts.length ≤ threeDestinations.length
        ∧ (∀ m ∈ counts, 1 ≤ m ∧ m ≤ 3)
        ∧ deleteCallsOf (deleteAll
            (sampleEnv [⟨threeDestinations, none⟩]
              (fun _ => some "TooManyRequestsException: Rate exceeded") "delete\n") 1).events
          = ((threeDestinations.zip counts).map
              (fun p => List.replicate p.2 p.1.EmailAddress)).flatten :=
  have h := deleteAll_exhausted_retries_go_on
    (sampleEnv [⟨threeDestinations, none⟩]
      (fun _ => some "TooManyRequestsException: Rate exceeded") "delete\n") 1
    [Event.listCall none]
    [⟨some "a@x.com", "BOUNCE", some "2024-01-01 00:00:00 +0000 UTC"⟩]
    ⟨some "b@x.com", "COMPLAINT", some "2024-01-02 00:00:00 +0000 UTC"⟩
    [⟨some "c@x.com", "BOUNCE", some "2024-01-03 00:00:00 +0000 UTC"⟩]
    [Event.deleteCall (some "a@x.com"), Event.sleep 1, Event.deleteCall (some "a@x.com"), Event.sleep 2,
      Event.deleteCall (some "a@x.com"), Event.sleep 3, Event.print "\rProgress: 1/3\n"] 3
    rfl (by decide) (by decide) (fun _ _ => rfl)
  ⟨h.2.2.2.1.trans (by decide), (h.2.2.2.2 (fun _ => Or.inr rfl)).1,
    h.2.1 _ 1 [Event.listCall none] threeDestinations rfl (by decide)⟩

/-- C10: in `deleteAll` past an accepted confirmation, when every delete call
succeeds at its first attempt, the run makes one delete call per record, for
the email addresses of the listed destinations in listing order (none for the
empty list), writes after the call of record i the progress line that shows
`i/n`, for i = 1, ..., n in that order, then writes the completion message and
returns. -/
theorem deleteAll_all_succeed (env : Env) (fuel : Nat) (calls : List Event)
    (destinations : List SuppressedDestinationSummary)
    (hlist : getAllDestinations env fuel = (calls, some (.ok destinations)))
    (hconf : confirmation env = "delete")
    (hok : ∀ k, k < destinations.length → env.DeleteSuppressedDestination k = none) :
    deleteAll env fuel
      = ⟨calls ++ deletePrompt env.rangeOrder destinations
          ++ Event.print "Deleting suppressed email destinations:\n"
            :: ((destinations.enum.map (fun p =>
                  [Event.deleteCall p.2.EmailAddress,
                    Event.print ("\rProgress: " ++ toString (p.1 + 1) ++ "/"
                      ++ toString destinations.length ++ "\n")])).flatten
              ++ [Event.print "\nDeletion complete.\n"]),
          .returned⟩
    ∧ deleteCallsOf (deleteAll env fuel).events
      = destinations.map (fun d => d.EmailAddress)
    ∧ printsOf (deleteAll env fuel).events
      = printsOf (deletePrompt env.rangeOrder destinations)
        ++ "Deleting suppressed email destinations:\n"
          :: ((List.range destinations.length).map (fun i =>
                "\rProgress: " ++ toString (i + 1) ++ "/"
                  ++ toString destinations.length ++ "\n")
            ++ ["\nDeletion complete.\n"]) := by
  have hl := deleteLoop_all_succeed env destinations.length destinations 0 0
    (fun k hk => by simpa using hok k hk)
  have hrun : deleteAll env fuel
      = ⟨calls ++ deletePrompt env.rangeOrder destinations
          ++ Event.print "Deleting suppressed email destinations:\n"
            :: ((destinations.enum.map (fun p =>
                  [Event.deleteCall p.2.EmailAddress,
                    Event.print (progressLine (p.1 + 1) destinations.length)])).flatten
              ++ [Event.print "\nDeletion complete.\n"]),
          .returned⟩ := by
    rw [deleteAll_confirmed env fuel calls _ hlist hconf, hl]
    simp [List.enum]
  have hcalls : deleteCallsOf calls = [] := by
    have := deleteCallsOf_getAllDestinations env fuel
    rw [hlist] at this
    exact this
  have hprints : printsOf calls = [] := by
    have := printsOf_getAllDestinations env fuel
    rw [hlist] at this
    exact this
  refine ⟨by simpa only [progressLine] using hrun, ?_, ?_⟩
  · rw [hrun]
    simp only [deleteCallsOf_append, deleteCallsOf_deletePrompt, hcalls, List.nil_append]
    simp only [deleteCallsOf, deleteCallsOf_append, List.enum, deleteCallsOf_all_succeed,
      List.append_nil]
  · rw [hrun]
    simp only [printsOf_append, hprints, List.nil_append]
    congr 1
    simp only [printsOf, printsOf_append, List.enum, printsOf_all_succeed,
      List.range_eq_range']
    rfl

/-- C10 at three records. -/
theorem deleteAll_all_succeed_witness :
    deleteAll (sampleEnv [⟨threeDestinations, none⟩] (fun _ => none) "delete\n") 1
      = ⟨[Event.listCall none,
          Event.print "You are about to delete the following suppressed email destinations:\n",
          Event.print "Reason, Count\n",
          Event.print "BOUNCE, 2\n",
          Event.print "COMPLAINT, 1\n",
          Event.print "TOTAL, 3\n",
          Event.print "Do you really want to delete all suppressed email destinations? This action cannot be undone.\n",
          Event.print "If you want to continue, type 'delete' to proceed: ",
          Event.print "Deleting suppressed email destinations:\n",
          Event.deleteCall (some "a@x.com"),
          Event.print "\rProgress: 1/3\n",
          Event.deleteCall (some "b@x.com"),
          Event.print "\rProgress: 2/3\n",
          Event.deleteCall (some "c@x.com"),
          Event.print "\rProgress: 3/3\n",
          Event.print "\nDeletion complete.\n"], .returned⟩ :=
  (deleteAll_all_succeed
    (sampleEnv [⟨threeDestinations, none⟩] (fun _ => none) "delete\n") 1
    [Event.listCall none] threeDestinations rfl (by decide) (fun _ _ => rfl)).1.trans
    (by decide)

/-- C2, at an input the claim covers: the user types the line `delete now`,
which is not the text `delete` under a case-insensitive, whitespace-trimmed
comparison.  `fmt.Scanln` stores the first word of the line, `delete`, so the
confirmation is accepted: `deleteAll` makes a delete call for each of the three
listed destinations and returns, where the claim has no call and a non-zero
exit status. -/
theorem deleteAll_accepts_first_word :
    Scanln "delete now\n" = "delete"
    ∧ ToLower id (TrimSpace "delete now\n") ≠ "delete"
    ∧ deleteAll (sampleEnv [⟨threeDestinations, none⟩] (fun _ => none) "delete now\n") 1
      = ⟨[Event.listCall none,
          Event.print "You are about to delete the following suppressed email destinations:\n",
          Event.print "Reason, Count\n",
          Event.print "BOUNCE, 2\n",
          Event.print "COMPLAINT, 1\n",
          Event.print "TOTAL, 3\n",
          Event.print "Do you really want to delete all suppressed email destinations? This action cannot be undone.\n",
          Event.print "If you want to continue, type 'delete' to proceed: ",
          Event.print "Deleting suppressed email destinations:\n",
          Event.deleteCall (some "a@x.com"),
          Event.print "\rProgress: 1/3\n",
          Event.deleteCall (some "b@x.com"),
          Event.print "\rProgress: 2/3\n",
          Event.deleteCall (some "c@x.com"),
          Event.print "\rProgress: 3/3\n",
          Event.print "\nDeletion complete.\n"], .returned⟩ := by
  decide

end SesCmds
